import Mathlib

/-!
Verification of the passworder vault core against its specification.

The definitions below are a shallow embedding of the Rust sources:

* `src/vault/format_v1.rs` — container format v1 (fixed header, TLV walk,
  encoder);
* `src/vault/ops.rs` — in-memory vault operations (load, seal, add, get,
  search, edit, remove) and item normalisation;
* `src/dev_workflows.rs` — shell-export emission and template substitution.

Modelling conventions:

* Rust byte slices (`&[u8]`, `Vec<u8>`) are `List Nat`; machine integers are
  `Nat` with explicit `% 2^w` where the source truncates (`as u32` casts).
* Rust `String` / `&str` values are `List Char`.  Rust `to_lowercase` and
  `trim` operate on Unicode; the claims only exercise their ASCII behaviour,
  which `Char.toLower` and `Char.isWhitespace` model.
* External crates (argon2, hkdf, chacha20poly1305, serde_json, OsRng, Uuid)
  are not part of this repository; they are modelled as an abstract
  `CryptoOracle` of fallible primitives, a deterministic random stream `Rng`,
  and `Nat`-valued item identifiers.  File I/O and advisory locking are
  likewise outside the byte-level core; the mutating operations are modelled
  from the bytes read to the bytes written.
-/

deriving instance DecidableEq for Except

namespace Passworder

/-! ## Little-endian byte utilities (u16/u32 as in the Rust source) -/

/-- Little-endian interpretation of a byte list, as in `from_le_bytes`. -/
def leNat : List Nat → Nat
  | [] => 0
  | b :: bs => b + 256 * leNat bs

/-- Two little-endian bytes of a `u16` value, as in `u16::to_le_bytes`.
The `% 256` of each digit mirrors byte truncation. -/
def u16le (n : Nat) : List Nat :=
  [n % 256, n / 256 % 256]

/-- Four little-endian bytes of a `u32` value, as in `u32::to_le_bytes`. -/
def u32le (n : Nat) : List Nat :=
  [n % 256, n / 256 % 256, n / 256 ^ 2 % 256, n / 256 ^ 3 % 256]

/-! ## Container format v1 (`src/vault/format_v1.rs`) -/

/-- Magic bytes `PWDERVLT` at offset 0. -/
def MAGIC : List Nat := [0x50, 0x57, 0x44, 0x45, 0x52, 0x56, 0x4C, 0x54]

/-- Version constant `VERSION_V1`. -/
def VERSION_V1 : Nat := 1

/-- Fixed header length: 8 (magic) + 2 (version) + 4 (header_len). -/
def FIXED_HEADER_LEN : Nat := 14

/-- TLV type codes from `format_v1.rs`. -/
def TLV_ARGON2_PARAMS : Nat := 0x0001
def TLV_KDF_SALT : Nat := 0x0002
def TLV_KDF_ALG : Nat := 0x0003
def TLV_AEAD_ALG : Nat := 0x0010
def TLV_HKDF_ALG : Nat := 0x0020
def TLV_WRAPPED_DEK : Nat := 0x0100
def TLV_PAYLOAD_NONCE : Nat := 0x0200

/-- ASCII bytes of the literal `argon2id`. -/
def KDF_ALG_ARGON2ID : List Nat := [0x61, 0x72, 0x67, 0x6F, 0x6E, 0x32, 0x69, 0x64]

/-- ASCII bytes of the literal `xchacha20poly1305`. -/
def AEAD_ALG_XCHACHA20POLY1305 : List Nat :=
  [0x78, 0x63, 0x68, 0x61, 0x63, 0x68, 0x61, 0x32, 0x30, 0x70, 0x6F, 0x6C, 0x79, 0x31,
   0x33, 0x30, 0x35]

/-- ASCII bytes of the literal `hkdf-sha256`. -/
def HKDF_ALG_SHA256 : List Nat :=
  [0x68, 0x6B, 0x64, 0x66, 0x2D, 0x73, 0x68, 0x61, 0x32, 0x35, 0x36]

/-- Output length of Argon2id in v1 (`KDF_OUT_LEN`). -/
def KDF_OUT_LEN : Nat := 32

/-- Size of the data-encryption key (`DEK_LEN`). -/
def DEK_LEN : Nat := 32

/-- Size of XChaCha20-Poly1305 nonces (`XCHACHA_NONCE_LEN`). -/
def XCHACHA_NONCE_LEN : Nat := 24

/-- Argon2id tuning parameters (struct `KdfParams` in `crypto.rs`);
all three fields are `u32` in the source. -/
structure KdfParams where
  memory_kib : Nat
  iterations : Nat
  parallelism : Nat
deriving DecidableEq, Repr

/-- Result of `parse_fixed_header`. -/
structure FixedHeader where
  version : Nat
  header_len : Nat
deriving DecidableEq, Repr

/-- Error enum `VaultFormatError`.  The `MissingField` and `InvalidField`
payloads carry the static field-name strings of the source. -/
inductive VaultFormatError where
  | TooSmall
  | InvalidMagic
  | UnsupportedVersion (v : Nat)
  | InvalidHeaderLen
  | InvalidTlv
  | MissingField (name : String)
  | InvalidField (name : String)
deriving DecidableEq, Repr

/-- Struct `VaultHeaderV1`. -/
structure VaultHeaderV1 where
  kdf_params : KdfParams
  kdf_salt : List Nat
  wrap_nonce : List Nat
  wrapped_dek : List Nat
  payload_nonce : List Nat
deriving DecidableEq, Repr

/-- Struct `ParsedVaultV1`: the parsed header plus the ciphertext trailer. -/
structure ParsedVaultV1 where
  header : VaultHeaderV1
  payload_ciphertext : List Nat
deriving DecidableEq, Repr

/-- Embedding of `parse_fixed_header`: validates magic, version 1 and
`14 ≤ header_len ≤ bytes.len()`. -/
def parse_fixed_header (bytes : List Nat) : Except VaultFormatError FixedHeader :=
  if bytes.length < FIXED_HEADER_LEN then .error .TooSmall
  else if bytes.take 8 ≠ MAGIC then .error .InvalidMagic
  else
    let version := leNat ((bytes.drop 8).take 2)
    if version ≠ VERSION_V1 then .error (.UnsupportedVersion version)
    else
      let header_len := leNat ((bytes.drop 10).take 4)
      if header_len < FIXED_HEADER_LEN ∨ bytes.length < header_len then
        .error .InvalidHeaderLen
      else .ok ⟨version, header_len⟩

/-- Mutable accumulator of the TLV walk in `parse_vault_v1` (the local
`Option` variables and the three algorithm flags). -/
structure TlvState where
  kdf_params : Option KdfParams
  kdf_salt : Option (List Nat)
  kdf_alg_ok : Bool
  aead_alg_ok : Bool
  hkdf_alg_ok : Bool
  wrap_nonce : Option (List Nat)
  wrapped_dek : Option (List Nat)
  payload_nonce : Option (List Nat)
deriving DecidableEq, Repr

/-- Initial TLV state: every field unset. -/
def initTlvState : TlvState :=
  ⟨none, none, false, false, false, none, none, none⟩

/-- One arm of the `match typ` in the TLV loop of `parse_vault_v1`.
Assignments overwrite the accumulator exactly as the Rust locals do. -/
def processTlv (typ : Nat) (value : List Nat) (st : TlvState) :
    Except VaultFormatError TlvState :=
  if typ = TLV_ARGON2_PARAMS then
    if value.length ≠ 16 then .error (.InvalidField "argon2_params")
    else
      let memory_kib := leNat (value.take 4)
      let iterations := leNat ((value.drop 4).take 4)
      let parallelism := leNat ((value.drop 8).take 4)
      let out_len := leNat ((value.drop 12).take 4)
      if out_len ≠ KDF_OUT_LEN then .error (.InvalidField "argon2_params.out_len")
      else .ok { st with kdf_params := some ⟨memory_kib, iterations, parallelism⟩ }
  else if typ = TLV_KDF_SALT then
    if value.length ≠ 16 then .error (.InvalidField "kdf_salt")
    else .ok { st with kdf_salt := some value }
  else if typ = TLV_KDF_ALG then
    if value = KDF_ALG_ARGON2ID then .ok { st with kdf_alg_ok := true }
    else .error (.InvalidField "kdf_alg")
  else if typ = TLV_AEAD_ALG then
    if value = AEAD_ALG_XCHACHA20POLY1305 then .ok { st with aead_alg_ok := true }
    else .error (.InvalidField "aead_alg")
  else if typ = TLV_HKDF_ALG then
    if value = HKDF_ALG_SHA256 then .ok { st with hkdf_alg_ok := true }
    else .error (.InvalidField "hkdf_alg")
  else if typ = TLV_WRAPPED_DEK then
    if value.length < XCHACHA_NONCE_LEN + 4 then .error (.InvalidField "wrapped_dek")
    else
      let nonce := value.take XCHACHA_NONCE_LEN
      let ct_len := leNat ((value.drop XCHACHA_NONCE_LEN).take 4)
      let ct := value.drop (XCHACHA_NONCE_LEN + 4)
      if ct.length ≠ ct_len then .error (.InvalidField "wrapped_dek.ct_len")
      else .ok { st with wrap_nonce := some nonce, wrapped_dek := some ct }
  else if typ = TLV_PAYLOAD_NONCE then
    if value.length ≠ XCHACHA_NONCE_LEN then .error (.InvalidField "payload_nonce")
    else .ok { st with payload_nonce := some value }
  else
    .ok st

/-- TLV walk of `parse_vault_v1`: the `while pos < tlvs.len()` loop, with the
byte cursor rendered as structural recursion on the remaining bytes. -/
def parseTlvs (tlvs : List Nat) (st : TlvState) : Except VaultFormatError TlvState :=
  match h : tlvs with
  | [] => .ok st
  | _ :: _ =>
    if h6 : tlvs.length < 6 then .error .InvalidTlv
    else
      let typ := leNat (tlvs.take 2)
      let len := leNat ((tlvs.drop 2).take 4)
      let rest := tlvs.drop 6
      if hr : rest.length < len then .error .InvalidTlv
      else
        match processTlv typ (rest.take len) st with
        | .error e => .error e
        | .ok st' => parseTlvs (rest.drop len) st'
termination_by tlvs.length
decreasing_by
  subst h
  simp only [List.length_drop] at *
  omega

/-- Tail of `parse_vault_v1` after the TLV walk: the three algorithm-flag
checks and the `ok_or(MissingField ...)` chain, in source order. -/
def assembleV1 (st : TlvState) (payload_ciphertext : List Nat) :
    Except VaultFormatError ParsedVaultV1 :=
  if st.kdf_alg_ok = false then .error (.MissingField "kdf_alg")
  else if st.aead_alg_ok = false then .error (.MissingField "aead_alg")
  else if st.hkdf_alg_ok = false then .error (.MissingField "hkdf_alg")
  else
    match st.kdf_params with
    | none => .error (.MissingField "argon2_params")
    | some kdf_params =>
      match st.kdf_salt with
      | none => .error (.MissingField "kdf_salt")
      | some kdf_salt =>
        match st.wrap_nonce with
        | none => .error (.MissingField "wrapped_dek.wrap_nonce")
        | some wrap_nonce =>
          match st.wrapped_dek with
          | none => .error (.MissingField "wrapped_dek")
          | some wrapped_dek =>
            match st.payload_nonce with
            | none => .error (.MissingField "payload_nonce")
            | some payload_nonce =>
              .ok ⟨⟨kdf_params, kdf_salt, wrap_nonce, wrapped_dek, payload_nonce⟩,
                   payload_ciphertext⟩

/-- Embedding of `parse_vault_v1`: fixed header, TLV walk, presence checks in
source order, then the assembled header plus the ciphertext trailer. -/
def parse_vault_v1 (bytes : List Nat) : Except VaultFormatError ParsedVaultV1 :=
  match parse_fixed_header bytes with
  | .error e => .error e
  | .ok fixed =>
    let header_len := fixed.header_len
    let tlvs := (bytes.drop FIXED_HEADER_LEN).take (header_len - FIXED_HEADER_LEN)
    let payload_ciphertext := bytes.drop header_len
    match parseTlvs tlvs initTlvState with
    | .error e => .error e
    | .ok st => assembleV1 st payload_ciphertext

/-- Embedding of `push_tlv`: `type:u16le | length:u32le | value`. -/
def push_tlv (typ : Nat) (value : List Nat) : List Nat :=
  u16le typ ++ u32le value.length ++ value

/-- Value bytes of the `argon2_params` TLV as produced by the encoder. -/
def argon2ParamsValue (p : KdfParams) : List Nat :=
  u32le p.memory_kib ++ u32le p.iterations ++ u32le p.parallelism ++ u32le KDF_OUT_LEN

/-- Value bytes of the `wrapped_dek` TLV as produced by the encoder:
`wrap_nonce | ct_len:u32le | ct`. -/
def wrappedDekValue (h : VaultHeaderV1) : List Nat :=
  h.wrap_nonce ++ u32le h.wrapped_dek.length ++ h.wrapped_dek

/-- TLV block of `encode_header_v1`, in the fixed encoder order. -/
def encodeTlvBlock (h : VaultHeaderV1) : List Nat :=
  push_tlv TLV_ARGON2_PARAMS (argon2ParamsValue h.kdf_params) ++
  push_tlv TLV_KDF_SALT h.kdf_salt ++
  push_tlv TLV_KDF_ALG KDF_ALG_ARGON2ID ++
  push_tlv TLV_AEAD_ALG AEAD_ALG_XCHACHA20POLY1305 ++
  push_tlv TLV_HKDF_ALG HKDF_ALG_SHA256 ++
  push_tlv TLV_WRAPPED_DEK (wrappedDekValue h) ++
  push_tlv TLV_PAYLOAD_NONCE h.payload_nonce

/-- Embedding of `encode_header_v1`: magic, version, `header_len` (a `u32`
cast of the total length), then the TLV block. -/
def encode_header_v1 (h : VaultHeaderV1) : List Nat :=
  let tlvs := encodeTlvBlock h
  let header_len := FIXED_HEADER_LEN + tlvs.length
  MAGIC ++ u16le VERSION_V1 ++ u32le header_len ++ tlvs

/-! ## Strings

Rust `String` values are modelled as `List Char`.  `Char.toLower` models the
ASCII action of `str::to_lowercase`, `Char.isWhitespace` the ASCII action of
`str::trim`, and `strContains` models `str::contains` (substring search). -/

/-- Model of Rust string type. -/
abbrev Str := List Char

/-- ASCII lowercasing of a string, modelling `str::to_lowercase`. -/
def toLowerStr (s : Str) : Str := s.map Char.toLower

/-- Whitespace trimming at both ends, modelling `str::trim`. -/
def trimStr (s : Str) : Str :=
  (((s.dropWhile Char.isWhitespace).reverse.dropWhile Char.isWhitespace)).reverse

/-- Substring test: `strContains hay q` models `hay.contains(q)`. -/
def strContains (hay q : Str) : Bool :=
  if q.isPrefixOf hay then true
  else
    match hay with
    | [] => false
    | _ :: t => strContains t q

/-- Lexicographic comparison of strings by code point, modelling the `Ord`
instance of Rust `String` (UTF-8 byte order agrees with code-point order). -/
def lexLe : Str → Str → Bool
  | [], _ => true
  | _ :: _, [] => false
  | a :: as, b :: bs => if a = b then lexLe as bs else decide (a < b)

/-! ## Item model (`src/vault/items.rs`) -/

/-- Enum `VaultItemType`. -/
inductive VaultItemType where
  | login
  | secureNote
  | apiToken
deriving DecidableEq, Repr

/-- Struct `VaultItemV1`.  The 128-bit random `Uuid` is modelled as a `Nat`
identifier (its `Ord` instance is a total order, as `Nat` is here). -/
structure VaultItemV1 where
  id : Nat
  item_type : VaultItemType
  name : Str
  path : Option Str
  tags : List Str
  username : Option Str
  secret : Str
  urls : List Str
  notes : Option Str
  created_at : Nat
  updated_at : Nat
deriving DecidableEq, Repr

/-- Struct `VaultPayloadV1`. -/
structure VaultPayloadV1 where
  schema_version : Nat
  items : List VaultItemV1
deriving DecidableEq, Repr

/-! ## Crypto and serialisation primitives as abstract collaborators

The AEAD, KDF and JSON primitives live in external crates
(`chacha20poly1305`, `argon2`, `hkdf`, `serde_json`); `ops.rs` only composes
them and maps their errors.  They are modelled as an abstract oracle of
fallible functions with exactly the signatures `crypto.rs` exposes. -/

/-- Error enum `CryptoError` from `crypto.rs`. -/
inductive CryptoError where
  | InvalidNonceLength
  | Argon2
  | Hkdf
  | Aead
deriving DecidableEq, Repr

/-- Abstract model of the external primitives used by `ops.rs`:
the four AEAD/KDF wrappers of `crypto.rs` plus serde_json on the payload. -/
structure CryptoOracle where
  derive_kdf_out : List Nat → List Nat → KdfParams → Except CryptoError (List Nat)
  derive_kek : List Nat → Except CryptoError (List Nat)
  wrap_dek : List Nat → List Nat → List Nat → List Nat → Except CryptoError (List Nat)
  unwrap_dek : List Nat → List Nat → List Nat → List Nat → Except CryptoError (List Nat)
  encrypt_payload : List Nat → List Nat → List Nat → List Nat → Except CryptoError (List Nat)
  decrypt_payload : List Nat → List Nat → List Nat → List Nat → Except CryptoError (List Nat)
  encode_payload : VaultPayloadV1 → Except Unit (List Nat)
  decode_payload : List Nat → Except Unit VaultPayloadV1

/-- Deterministic model of the OS CSPRNG: an infinite byte stream plus a
cursor.  `random_bytes` reads the next `n` bytes and advances the cursor. -/
structure Rng where
  stream : Nat → Nat
  pos : Nat

/-- Model of `crypto::random_bytes::<N>()`: the next `n` stream bytes. -/
def random_bytes (r : Rng) (n : Nat) : List Nat × Rng :=
  ((List.range n).map (fun i => r.stream (r.pos + i)), ⟨r.stream, r.pos + n⟩)

/-! ## Vault operations (`src/vault/ops.rs`) -/

/-- Error enum `VaultError` (the variants reachable from the in-memory core;
`ItemNotFound` carries the looked-up id, `Json` abstracts serde_json). -/
inductive VaultError where
  | NotInitialized
  | AuthFailed
  | UnsupportedPayloadSchema (v : Nat)
  | ItemNotFound (id : Nat)
  | Crypto (e : CryptoError)
  | Format (e : VaultFormatError)
  | Json
deriving DecidableEq, Repr

/-- Embedding of `aad_for_v1`: the header re-encoded with the wrapped-DEK
ciphertext replaced by an equal-length zero run. -/
def aad_for_v1 (header : VaultHeaderV1) : List Nat :=
  encode_header_v1 { header with wrapped_dek := List.replicate header.wrapped_dek.length 0 }

/-- Embedding of `load_payload_v1`: parse, derive KEK, unwrap DEK, decrypt
payload, parse JSON, check the schema version.  The two `map_err` closures
collapsing `CryptoError::Aead` into `AuthFailed` are modelled verbatim. -/
def load_payload_v1 (O : CryptoOracle) (vault_bytes : List Nat) (pw : List Nat) :
    Except VaultError (VaultPayloadV1 × ParsedVaultV1) :=
  match parse_vault_v1 vault_bytes with
  | .error e => .error (.Format e)
  | .ok parsed =>
    let aad := aad_for_v1 parsed.header
    match O.derive_kdf_out pw parsed.header.kdf_salt parsed.header.kdf_params with
    | .error e => .error (.Crypto e)
    | .ok kdf_out =>
      match O.derive_kek kdf_out with
      | .error e => .error (.Crypto e)
      | .ok kek =>
        match O.unwrap_dek kek parsed.header.wrap_nonce aad parsed.header.wrapped_dek with
        | .error CryptoError.Aead => .error .AuthFailed
        | .error e => .error (.Crypto e)
        | .ok dek =>
          match O.decrypt_payload dek parsed.header.payload_nonce aad
              parsed.payload_ciphertext with
          | .error CryptoError.Aead => .error .AuthFailed
          | .error e => .error (.Crypto e)
          | .ok plaintext =>
            match O.decode_payload plaintext with
            | .error _ => .error .Json
            | .ok payload =>
              if payload.schema_version ≠ 1 then
                .error (.UnsupportedPayloadSchema payload.schema_version)
              else .ok (payload, parsed)

/-- Embedding of `seal_vault_v1`: fresh wrap nonce, payload nonce and DEK,
KEK re-derived from the supplied params and salt, AAD from the zero-filled
placeholder header, then header bytes followed by the payload ciphertext. -/
def seal_vault_v1 (O : CryptoOracle) (rng : Rng) (kdf_params : KdfParams)
    (kdf_salt : List Nat) (pw : List Nat) (payload : VaultPayloadV1) :
    Except VaultError (List Nat) :=
  let (wrap_nonce, rng1) := random_bytes rng XCHACHA_NONCE_LEN
  let (payload_nonce, rng2) := random_bytes rng1 XCHACHA_NONCE_LEN
  match O.derive_kdf_out pw kdf_salt kdf_params with
  | .error e => .error (.Crypto e)
  | .ok kdf_out =>
    match O.derive_kek kdf_out with
    | .error e => .error (.Crypto e)
    | .ok kek =>
      let (dek, _) := random_bytes rng2 DEK_LEN
      let placeholder : VaultHeaderV1 :=
        ⟨kdf_params, kdf_salt, wrap_nonce, List.replicate (DEK_LEN + 16) 0, payload_nonce⟩
      let aad := encode_header_v1 placeholder
      match O.wrap_dek kek wrap_nonce aad dek with
      | .error e => .error (.Crypto e)
      | .ok wrapped_dek =>
        let header := { placeholder with wrapped_dek := wrapped_dek }
        let header_bytes := encode_header_v1 header
        match O.encode_payload payload with
        | .error _ => .error .Json
        | .ok payload_json =>
          match O.encrypt_payload dek payload_nonce aad payload_json with
          | .error e => .error (.Crypto e)
          | .ok payload_ciphertext => .ok (header_bytes ++ payload_ciphertext)

/-- Embedding of `item_sort_cmp` as a boolean `cmp ≠ Greater` relation:
lexicographic on `(path or "", name, id)`. -/
def item_sort_le (a b : VaultItemV1) : Bool :=
  let ap := a.path.getD []
  let bp := b.path.getD []
  if ap = bp then
    if a.name = b.name then decide (a.id ≤ b.id)
    else lexLe a.name b.name
  else lexLe ap bp

/-- Removal of consecutive duplicates, modelling `Vec::dedup`. -/
def dedupConsec : List Str → List Str
  | [] => []
  | [a] => [a]
  | a :: b :: rest =>
    if a = b then dedupConsec (a :: rest) else a :: dedupConsec (b :: rest)

/-- Embedding of `normalize_tags`: trim, drop empties, lowercase, sort,
dedup. -/
def normalize_tags (tags : List Str) : List Str :=
  let out := tags.filterMap (fun t =>
    let t := trimStr t
    if t.isEmpty then none else some (toLowerStr t))
  dedupConsec (out.mergeSort lexLe)

/-- Embedding of `normalize_urls`: trim, drop empties, sort, dedup;
case preserved. -/
def normalize_urls (urls : List Str) : List Str :=
  let out := urls.filterMap (fun u =>
    let u := trimStr u
    if u.isEmpty then none else some u)
  dedupConsec (out.mergeSort lexLe)

/-- Embedding of `item_matches_query`: the early-return `if` chain over
name, path, tags, username, urls, notes.  The query argument is already
trimmed and lowercased by the caller; tags are matched as stored. -/
def item_matches_query (item : VaultItemV1) (q : Str) : Bool :=
  if strContains (toLowerStr item.name) q then true
  else if (match item.path with
           | some path => strContains (toLowerStr path) q
           | none => false) then true
  else if item.tags.any (fun t => strContains t q) then true
  else if (match item.username with
           | some username => strContains (toLowerStr username) q
           | none => false) then true
  else if item.urls.any (fun u => strContains (toLowerStr u) q) then true
  else if (match item.notes with
           | some notes => strContains (toLowerStr notes) q
           | none => false) then true
  else false

/-- In-memory core of `vault_search_items_v1`: trim and lowercase the query,
return nothing for an empty result, otherwise filter by
`item_matches_query`. -/
def vault_search_items_v1 (items : List VaultItemV1) (query : Str) :
    List VaultItemV1 :=
  let q := toLowerStr (trimStr query)
  if q.isEmpty then []
  else items.filter (fun item => item_matches_query item q)

/-- Input struct `AddItemInput`. -/
structure AddItemInput where
  item_type : VaultItemType
  name : Str
  path : Option Str
  tags : List Str
  username : Option Str
  secret : Str
  urls : List Str
  notes : Option Str
deriving DecidableEq, Repr

/-- Input struct `EditItemInput` with its per-field tri-states
(`clear_*` flag plus `Option` value). -/
structure EditItemInput where
  id : Nat
  item_type : Option VaultItemType
  name : Option Str
  path : Option Str
  clear_path : Bool
  tags : Option (List Str)
  clear_tags : Bool
  username : Option Str
  clear_username : Bool
  secret : Option Str
  urls : Option (List Str)
  clear_urls : Bool
  notes : Option Str
  clear_notes : Bool
deriving DecidableEq, Repr

/-- Item constructed by `vault_add_item_v1` from an `AddItemInput`, a fresh
id (`Uuid::new_v4`) and the current Unix second. -/
def mk_added_item (input : AddItemInput) (now newId : Nat) : VaultItemV1 :=
  { id := newId
    item_type := input.item_type
    name := input.name
    path := input.path
    tags := normalize_tags input.tags
    username := input.username
    secret := input.secret
    urls := normalize_urls input.urls
    notes := input.notes
    created_at := now
    updated_at := now }

/-- Payload mutation of `vault_add_item_v1`: push the new item, then
`sort_by(item_sort_cmp)`. -/
def add_item_payload (payload : VaultPayloadV1) (input : AddItemInput)
    (now newId : Nat) : VaultPayloadV1 :=
  { payload with
    items := (payload.items ++ [mk_added_item input now newId]).mergeSort item_sort_le }

/-- Field updates of `vault_edit_item_v1` on the found item.  The source
mutates the found item field by field; each field is written by exactly one
statement, so the sequence is rendered as one record: each `clear_*` flag
runs before the corresponding `Some` branch, the secret has no clear branch,
`id` and `created_at` are never written, and `updated_at` is set to `now`. -/
def edit_one (it : VaultItemV1) (input : EditItemInput) (now : Nat) : VaultItemV1 :=
  { id := it.id
    item_type := match input.item_type with | some t => t | none => it.item_type
    name := match input.name with | some nm => nm | none => it.name
    path :=
      if input.clear_path then none
      else match input.path with | some p => some p | none => it.path
    tags :=
      if input.clear_tags then []
      else match input.tags with | some ts => normalize_tags ts | none => it.tags
    username :=
      if input.clear_username then none
      else match input.username with | some u => some u | none => it.username
    secret := match input.secret with | some s => s | none => it.secret
    urls :=
      if input.clear_urls then []
      else match input.urls with | some us => normalize_urls us | none => it.urls
    notes :=
      if input.clear_notes then none
      else match input.notes with | some nt => some nt | none => it.notes
    created_at := it.created_at
    updated_at := now }

/-- Edit of the first item whose id matches, modelling
`iter_mut().find(...)` followed by the in-place field updates; `none` when
the id is absent. -/
def editFirst (items : List VaultItemV1) (input : EditItemInput) (now : Nat) :
    Option (List VaultItemV1) :=
  match items with
  | [] => none
  | i :: rest =>
    if i.id = input.id then some (edit_one i input now :: rest)
    else (editFirst rest input now).map (fun rest' => i :: rest')

/-- Payload mutation of `vault_edit_item_v1`: edit the found item (or fail
with `ItemNotFound`), then `sort_by(item_sort_cmp)`. -/
def edit_item_payload (payload : VaultPayloadV1) (input : EditItemInput)
    (now : Nat) : Except VaultError VaultPayloadV1 :=
  match editFirst payload.items input now with
  | none => .error (.ItemNotFound input.id)
  | some items' => .ok { payload with items := items'.mergeSort item_sort_le }

/-- Payload mutation of `vault_remove_item_v1`: `retain(|i| i.id != id)`,
failing with `ItemNotFound` when the length is unchanged. -/
def remove_item_payload (payload : VaultPayloadV1) (id : Nat) :
    Except VaultError VaultPayloadV1 :=
  let items' := payload.items.filter (fun i => i.id ≠ id)
  if items'.length = payload.items.length then .error (.ItemNotFound id)
  else .ok { payload with items := items' }

/-- Byte-level core of `vault_add_item_v1` (between the bytes read under the
exclusive lock and the bytes handed to the atomic write): load the payload,
append the new item, sort, re-seal with the kdf params and salt of the
existing header. -/
def vault_add_item_v1 (O : CryptoOracle) (rng : Rng) (vault_bytes : List Nat)
    (pw : List Nat) (input : AddItemInput) (now newId : Nat) :
    Except VaultError (Nat × List Nat) :=
  match load_payload_v1 O vault_bytes pw with
  | .error e => .error e
  | .ok (payload, parsed) =>
    let payload' := add_item_payload payload input now newId
    match seal_vault_v1 O rng parsed.header.kdf_params parsed.header.kdf_salt pw
        payload' with
    | .error e => .error e
    | .ok new_bytes => .ok (newId, new_bytes)

/-- Byte-level core of `vault_edit_item_v1`: load, edit the found item (or
return `ItemNotFound` before anything is sealed), sort, re-seal. -/
def vault_edit_item_v1 (O : CryptoOracle) (rng : Rng) (vault_bytes : List Nat)
    (pw : List Nat) (input : EditItemInput) (now : Nat) :
    Except VaultError (List Nat) :=
  match load_payload_v1 O vault_bytes pw with
  | .error e => .error e
  | .ok (payload, parsed) =>
    match edit_item_payload payload input now with
    | .error e => .error e
    | .ok payload' =>
      seal_vault_v1 O rng parsed.header.kdf_params parsed.header.kdf_salt pw payload'

/-- Byte-level core of `vault_remove_item_v1`: load, retain the other items
(or return `ItemNotFound` before anything is sealed), re-seal. -/
def vault_remove_item_v1 (O : CryptoOracle) (rng : Rng) (vault_bytes : List Nat)
    (pw : List Nat) (id : Nat) : Except VaultError (List Nat) :=
  match load_payload_v1 O vault_bytes pw with
  | .error e => .error e
  | .ok (payload, parsed) =>
    match remove_item_payload payload id with
    | .error e => .error e
    | .ok payload' =>
      seal_vault_v1 O rng parsed.header.kdf_params parsed.header.kdf_salt pw payload'

/-- File-level view of an exclusive-lock mutation: the vault file bytes are
read once at the start, and `write_vault_bytes_atomic_unlocked` is called
exactly once, after every fallible step, with the sealed bytes.  An error
result therefore leaves the file bytes untouched. -/
def run_file_mutation (file : List Nat) (op : List Nat → Except VaultError (List Nat)) :
    Except VaultError Unit × List Nat :=
  match op file with
  | .ok new_bytes => (.ok (), new_bytes)
  | .error e => (.error e, file)

/-! ## Developer workflows (`src/dev_workflows.rs`)

The `BTreeMap<String, String>` of environment variables is modelled as an
association list in the map's iteration order; `lookupVar` models
`BTreeMap::get`. -/

/-- Error enum `DevWorkflowError`. -/
inductive DevWorkflowError where
  | InvalidEnvVarName (name : Str)
  | UnterminatedPlaceholder
  | UnknownVariable (name : Str)
deriving DecidableEq, Repr

/-- Key lookup in the association-list model of the variable map. -/
def lookupVar (vars : List (Str × Str)) (k : Str) : Option Str :=
  match vars with
  | [] => none
  | (k', v) :: rest => if k' = k then some v else lookupVar rest k

/-- ASCII uppercase test (`char::is_ascii_uppercase`). -/
def isAsciiUpper (c : Char) : Bool := decide ('A' ≤ c ∧ c ≤ 'Z')

/-- ASCII digit test (`char::is_ascii_digit`). -/
def isAsciiDigit (c : Char) : Bool := decide ('0' ≤ c ∧ c ≤ '9')

/-- Embedding of `is_valid_env_var_name`: first character `_` or ASCII
uppercase, remaining characters `_`, ASCII uppercase or ASCII digit. -/
def is_valid_env_var_name (s : Str) : Bool :=
  match s with
  | [] => false
  | first :: rest =>
    (first = '_' || isAsciiUpper first) &&
    rest.all (fun c => c = '_' || isAsciiUpper c || isAsciiDigit c)

/-- Escape of one character inside single quotes: a quote becomes the four
characters of the sequence quote backslash quote quote. -/
def bash_escape_char (ch : Char) : Str :=
  if ch = '\'' then ['\'', '\\', '\'', '\''] else [ch]

/-- Embedding of `bash_single_quote`: two quotes for the empty value,
otherwise the value with quotes escaped, wrapped in single quotes. -/
def bash_single_quote (s : Str) : Str :=
  if s.isEmpty then ['\'', '\'']
  else '\'' :: (s.flatMap bash_escape_char ++ ['\''])

/-- Embedding of `bash_export_lines`: one `export K=...` line per entry in
map order, failing with `InvalidEnvVarName` at the first invalid key. -/
def bash_export_lines (vars : List (Str × Str)) : Except DevWorkflowError Str :=
  match vars with
  | [] => .ok []
  | (k, v) :: rest =>
    if is_valid_env_var_name k = false then .error (.InvalidEnvVarName k)
    else
      match bash_export_lines rest with
      | .error e => .error e
      | .ok tail =>
        .ok (("export ".toList ++ k ++ ['=']) ++ bash_single_quote v ++ '\n' :: tail)

/-- Scan to the closing brace of a placeholder: the characters before the
first `}` and the remainder after it, or `none` when no `}` follows. -/
def splitAtCloseBrace : Str → Option (Str × Str)
  | [] => none
  | c :: rest =>
    if c = '}' then some ([], rest)
    else (splitAtCloseBrace rest).map (fun p => (c :: p.1, p.2))

/-- Embedding of `render_template`: the byte cursor of the source rendered
as structural recursion on the character list.  A `$` followed by `{` opens
a placeholder scanned to the first `}`; any other character is literal. -/
def render_template (template : Str) (vars : List (Str × Str)) :
    Except DevWorkflowError Str :=
  match template with
  | [] => .ok []
  | '$' :: '{' :: rest =>
    (match hs : splitAtCloseBrace rest with
     | none => .error .UnterminatedPlaceholder
     | some (nm, after) =>
       if is_valid_env_var_name nm = false then .error (.InvalidEnvVarName nm)
       else
         match lookupVar vars nm with
         | none => .error (.UnknownVariable nm)
         | some v =>
           match render_template after vars with
           | .error e => .error e
           | .ok out => .ok (v ++ out))
  | c :: rest =>
    match render_template rest vars with
    | .error e => .error e
    | .ok out => .ok (c :: out)
termination_by template.length
decreasing_by
  all_goals
  have key : ∀ (s nm r : Str), splitAtCloseBrace s = some (nm, r) → r.length < s.length := by
    intro s
    induction s with
    | nil => intro nm r hx; simp [splitAtCloseBrace] at hx
    | cons c rest2 ih =>
      intro nm r hx
      simp only [splitAtCloseBrace] at hx
      by_cases hc : c = '}'
      · simp [hc] at hx
        simp [← hx.2]
      · simp only [hc, if_false, Option.map_eq_some'] at hx
        obtain ⟨⟨n2, r2⟩, hp, heq⟩ := hx
        have hlt := ih _ _ hp
        have hr2 : r = r2 := by
          have hsnd := congrArg Prod.snd heq
          simpa using hsnd.symm
        subst hr2
        simp only [List.length_cons]
        omega
  first
  | exact Nat.lt_trans (key _ _ _ hs) (by simp only [List.length_cons]; omega)
  | omega
  | simp only [List.length_cons]; omega

/-! ## Spec-side definitions used to state the claims -/

/-- Claim-side test for C3, from the spec words: the (raw) query is a
case-insensitive substring of the field. -/
def ciSubstr (q s : Str) : Bool := strContains (toLowerStr s) (toLowerStr q)

/-- Claim-side match predicate for C3 as literally stated: the query is a
case-insensitive substring of the name, the path, some tag, the username,
some url, or the notes. -/
def claimMatches (q : Str) (item : VaultItemV1) : Bool :=
  ciSubstr q item.name ||
  (match item.path with | some p => ciSubstr q p | none => false) ||
  item.tags.any (fun t => ciSubstr q t) ||
  (match item.username with | some u => ciSubstr q u | none => false) ||
  item.urls.any (fun u => ciSubstr q u) ||
  (match item.notes with | some nt => ciSubstr q nt | none => false)

/-- Claim-side search for C3 as literally stated: the empty query returns
the empty set, any other query filters by `claimMatches`. -/
def claimSearch (items : List VaultItemV1) (query : Str) : List VaultItemV1 :=
  if query.isEmpty then [] else items.filter (claimMatches query)

/-- Case-insensitive substring relation, as a proposition. -/
def CiSub (q s : Str) : Prop := toLowerStr q <:+: toLowerStr s

/-- Amended match predicate for C3: the *trimmed* query, case-insensitively
against name, path, username, urls and notes, but verbatim (lowercased query
against the stored bytes) for tags. -/
def AmendedMatch (item : VaultItemV1) (query : Str) : Prop :=
  CiSub (trimStr query) item.name ∨
  (∃ p ∈ item.path, CiSub (trimStr query) p) ∨
  (∃ t ∈ item.tags, toLowerStr (trimStr query) <:+: t) ∨
  (∃ u ∈ item.username, CiSub (trimStr query) u) ∨
  (∃ u ∈ item.urls, CiSub (trimStr query) u) ∨
  (∃ nt ∈ item.notes, CiSub (trimStr query) nt)

instance (it : VaultItemV1) (query : Str) : Decidable (AmendedMatch it query) := by
  unfold AmendedMatch CiSub
  infer_instance

/-- Decoding of an `argon2_params` TLV value, as the parser performs it. -/
def decodeArgon2 (v : List Nat) : KdfParams :=
  ⟨leNat (v.take 4), leNat ((v.drop 4).take 4), leNat ((v.drop 8).take 4)⟩

/-- Values of all TLV records of one type, in order of appearance. -/
def tlvValues (t : Nat) (rs : List (Nat × List Nat)) : List (List Nat) :=
  rs.filterMap (fun r => if r.1 = t then some r.2 else none)

/-- Byte encoding of a list of TLV records. -/
def encodeRecords (rs : List (Nat × List Nat)) : List Nat :=
  rs.flatMap (fun r => push_tlv r.1 r.2)

/-- Record-level view of the TLV walk: `processTlv` folded over the records
in order. -/
def foldTlvRecords (rs : List (Nat × List Nat)) (st : TlvState) :
    Except VaultFormatError TlvState :=
  match rs with
  | [] => .ok st
  | (t, v) :: rest =>
    match processTlv t v st with
    | .error e => .error e
    | .ok st' => foldTlvRecords rest st'

/-- Full header byte string built from a list of TLV records. -/
def headerBytesOfRecords (rs : List (Nat × List Nat)) (c : List Nat) : List Nat :=
  MAGIC ++ (u16le VERSION_V1 ++
    (u32le (FIXED_HEADER_LEN + (encodeRecords rs).length) ++ (encodeRecords rs ++ c)))

/-- Well-formedness of the AEAD wrap primitive in v1: every ciphertext it
returns is the 32-byte DEK plus the 16-byte Poly1305 tag (the length the
source hardcodes as `DEK_LEN + 16`). -/
def WrapLenOk (O : CryptoOracle) : Prop :=
  ∀ kek n aad dek ct, O.wrap_dek kek n aad dek = .ok ct → ct.length = DEK_LEN + 16

/-- First fresh draw of `seal_vault_v1`: the wrap nonce. -/
def fresh_wrap_nonce (rng : Rng) : List Nat :=
  (random_bytes rng XCHACHA_NONCE_LEN).1

/-- Second fresh draw of `seal_vault_v1`: the payload nonce. -/
def fresh_payload_nonce (rng : Rng) : List Nat :=
  (random_bytes (random_bytes rng XCHACHA_NONCE_LEN).2 XCHACHA_NONCE_LEN).1

/-- Third fresh draw of `seal_vault_v1`: the DEK. -/
def fresh_dek (rng : Rng) : List Nat :=
  (random_bytes (random_bytes (random_bytes rng XCHACHA_NONCE_LEN).2
    XCHACHA_NONCE_LEN).2 DEK_LEN).1

/-- Strict lexicographic order on strings (sorted and duplicate-free lists
are exactly the `lexLt`-pairwise ones). -/
def lexLt (a b : Str) : Prop := lexLe a b = true ∧ a ≠ b

/-- One normalised tag: trimmed, lowercased, non-empty. -/
def NormalizedTag (t : Str) : Prop := trimStr t = t ∧ toLowerStr t = t ∧ t ≠ []

/-- One normalised url: trimmed and non-empty (case preserved). -/
def NormalizedUrl (u : Str) : Prop := trimStr u = u ∧ u ≠ []

/-- Tag-list invariant: all entries normalised, strictly sorted (hence
duplicate-free). -/
def TagsNormalized (tags : List Str) : Prop :=
  (∀ t ∈ tags, NormalizedTag t) ∧ tags.Pairwise lexLt

/-- Url-list invariant: all entries normalised, strictly sorted (hence
duplicate-free). -/
def UrlsNormalized (urls : List Str) : Prop :=
  (∀ u ∈ urls, NormalizedUrl u) ∧ urls.Pairwise lexLt

/-- Item-set invariant of §3.4: normalised tags and urls on every item,
items sorted by `(path or empty, name, id)`, pairwise distinct ids. -/
def ItemsInvariant (items : List VaultItemV1) : Prop :=
  (∀ it ∈ items, TagsNormalized it.tags ∧ UrlsNormalized it.urls) ∧
  items.Pairwise (fun a b => item_sort_le a b = true) ∧
  items.Pairwise (fun a b => a.id ≠ b.id)

/-- Payload invariant: the item-set invariant on its items. -/
def PayloadInvariant (p : VaultPayloadV1) : Prop := ItemsInvariant p.items

instance (a b : Str) : Decidable (lexLt a b) := by
  unfold lexLt; infer_instance

instance (t : Str) : Decidable (NormalizedTag t) := by
  unfold NormalizedTag; infer_instance

instance (u : Str) : Decidable (NormalizedUrl u) := by
  unfold NormalizedUrl; infer_instance

instance (tags : List Str) : Decidable (TagsNormalized tags) := by
  unfold TagsNormalized; infer_instance

instance (urls : List Str) : Decidable (UrlsNormalized urls) := by
  unfold UrlsNormalized; infer_instance

instance (items : List VaultItemV1) : Decidable (ItemsInvariant items) := by
  unfold ItemsInvariant; infer_instance

instance (p : VaultPayloadV1) : Decidable (PayloadInvariant p) := by
  unfold PayloadInvariant; infer_instance

/-- Spec-side form of one shell-export line for C8: `export K='V'` plus
newline, where `V` is the value with every quote replaced by the four-byte
escape. -/
def specExportLine (k v : Str) : Str :=
  "export ".toList ++ k ++ ('=' :: '\'' :: v.flatMap bash_escape_char) ++ ['\'', '\n']

/-- Spec-side form of the whole export output for C8: the lines in map
order, concatenated. -/
def specExportLines (vars : List (Str × Str)) : Str :=
  vars.flatMap (fun kv => specExportLine kv.1 kv.2)

/-- Scan to the first placeholder opener: characters before the first
dollar-brace pair, and the characters after it.  `none` when the template
contains no opener (a trailing lone dollar is literal). -/
def splitAtPlaceholder : Str → Option (Str × Str)
  | [] => none
  | [_] => none
  | c1 :: c2 :: rest =>
    if c1 = '$' ∧ c2 = '{' then some ([], rest)
    else (splitAtPlaceholder (c2 :: rest)).map (fun p => (c1 :: p.1, p.2))

/-- Claim-side renderer for C9, from the spec words: decompose the template
at the first placeholder opener, copy the prefix literally, resolve the
placeholder name up to the first closing brace (unterminated, invalid-name
and unknown-name errors in that order), then continue behind it. -/
def renderSpec (template : Str) (vars : List (Str × Str)) :
    Except DevWorkflowError Str :=
  match hp : splitAtPlaceholder template with
  | none => .ok template
  | some (pre, rest) =>
    match hc : splitAtCloseBrace rest with
    | none => .error .UnterminatedPlaceholder
    | some (nm, after) =>
      if is_valid_env_var_name nm = false then .error (.InvalidEnvVarName nm)
      else
        match lookupVar vars nm with
        | none => .error (.UnknownVariable nm)
        | some v =>
          match renderSpec after vars with
          | .error e => .error e
          | .ok out => .ok (pre ++ v ++ out)
termination_by template.length
decreasing_by
  all_goals
  have key1 : ∀ (s p r : Str), splitAtPlaceholder s = some (p, r) → r.length + 2 ≤ s.length := by
    intro s
    induction s with
    | nil => intro p r hx; simp [splitAtPlaceholder] at hx
    | cons c1 tail ih =>
      intro p r hx
      cases tail with
      | nil => simp [splitAtPlaceholder] at hx
      | cons c2 rest2 =>
        simp only [splitAtPlaceholder] at hx
        by_cases hcc : c1 = '$' ∧ c2 = '{'
        · rw [if_pos hcc] at hx
          simp only [Option.some.injEq, Prod.mk.injEq] at hx
          obtain ⟨hx1, hx2⟩ := hx
          subst hx2
          simp only [List.length_cons]
          omega
        · rw [if_neg hcc, Option.map_eq_some'] at hx
          obtain ⟨⟨p2, r2⟩, hp2, heq⟩ := hx
          have hlt := ih _ _ hp2
          have hr2 : r = r2 := by
            have hsnd := congrArg Prod.snd heq
            simpa using hsnd.symm
          subst hr2
          simp only [List.length_cons] at hlt ⊢
          omega
  have key2 : ∀ (s nm r : Str), splitAtCloseBrace s = some (nm, r) → r.length < s.length := by
    intro s
    induction s with
    | nil => intro nm r hx; simp [splitAtCloseBrace] at hx
    | cons c rest2 ih =>
      intro nm r hx
      simp only [splitAtCloseBrace] at hx
      by_cases hcb : c = '}'
      · simp [hcb] at hx
        simp [← hx.2]
      · simp only [hcb, if_false, Option.map_eq_some'] at hx
        obtain ⟨⟨n2, r2⟩, hp2, heq⟩ := hx
        have hlt := ih _ _ hp2
        have hr2 : r = r2 := by
          have hsnd := congrArg Prod.snd heq
          simpa using hsnd.symm
        subst hr2
        simp only [List.length_cons]
        omega
  have h1 := key1 _ _ _ hp
  have h2 := key2 _ _ _ hc
  omega

/-! ## Concrete instances used by witnesses and counterexamples -/

/-- Concrete well-formed test header. -/
def wHdr : VaultHeaderV1 :=
  { kdf_params := ⟨8, 1, 1⟩
    kdf_salt := List.replicate 16 3
    wrap_nonce := List.replicate 24 4
    wrapped_dek := List.replicate 48 5
    payload_nonce := List.replicate 24 6 }

/-- Concrete vault bytes: the encoded test header plus a two-byte trailer. -/
def wBytes : List Nat := encode_header_v1 wHdr ++ [7, 7]

/-- Concrete stored test item. -/
def wItem : VaultItemV1 :=
  { id := 1, item_type := .login, name := "github".toList, path := none,
    tags := ["work".toList], username := none, secret := "s".toList,
    urls := [], notes := none, created_at := 2, updated_at := 2 }

/-- Oracle whose primitives all succeed with fixed outputs and whose decoded
payload holds the single test item. -/
def wOracle : CryptoOracle :=
  { derive_kdf_out := fun _ _ _ => .ok []
    derive_kek := fun _ => .ok []
    wrap_dek := fun _ _ _ _ => .ok (List.replicate (DEK_LEN + 16) 0)
    unwrap_dek := fun _ _ _ _ => .ok []
    encrypt_payload := fun _ _ _ _ => .ok []
    decrypt_payload := fun _ _ _ _ => .ok []
    encode_payload := fun _ => .ok []
    decode_payload := fun _ => .ok ⟨1, [wItem]⟩ }

/-- Oracle variant whose DEK unwrap fails authentication. -/
def wOracleUnwrapFail : CryptoOracle :=
  { wOracle with unwrap_dek := fun _ _ _ _ => .error .Aead }

/-- Oracle variant whose payload decrypt fails authentication. -/
def wOracleDecryptFail : CryptoOracle :=
  { wOracle with decrypt_payload := fun _ _ _ _ => .error .Aead }

/-- Deterministic all-zero random stream. -/
def wRng : Rng := ⟨fun _ => 0, 0⟩

/-- Edit input for the C5 witness: clears the tags while also supplying a
set value for them (clear must win), sets the path, keeps the rest. -/
def w5input : EditItemInput :=
  { id := 1, item_type := none, name := none,
    path := some "dev".toList, clear_path := false,
    tags := some ["X".toList], clear_tags := true,
    username := none, clear_username := false,
    secret := none,
    urls := none, clear_urls := false,
    notes := none, clear_notes := false }

/-- Edit input for the C10 witness: requests an id absent from the stored
payload with every field kept. -/
def w10input : EditItemInput :=
  { id := 2, item_type := none, name := none,
    path := none, clear_path := false,
    tags := none, clear_tags := false,
    username := none, clear_username := false,
    secret := none,
    urls := none, clear_urls := false,
    notes := none, clear_notes := false }

/-- Item for the C3 counterexample: a login named `github`. -/
def c3item : VaultItemV1 :=
  { id := 1, item_type := .login, name := "github".toList, path := none,
    tags := [], username := none, secret := [], urls := [], notes := none,
    created_at := 0, updated_at := 0 }

/-- Query for the C3 counterexample: `git` with surrounding spaces, which is
not a substring of `github` but matches after the trim the source applies. -/
def c3query : Str := (" git ").toList

/-- Duplicate-salt TLV records for the C4 counterexample: a full valid
header in encoder order, with a second `kdf_salt` TLV inserted. -/
def c4records : List (Nat × List Nat) :=
  [(TLV_ARGON2_PARAMS, argon2ParamsValue ⟨1, 1, 1⟩),
   (TLV_KDF_SALT, List.replicate 16 0xAA),
   (TLV_KDF_SALT, List.replicate 16 0xBB),
   (TLV_KDF_ALG, KDF_ALG_ARGON2ID),
   (TLV_AEAD_ALG, AEAD_ALG_XCHACHA20POLY1305),
   (TLV_HKDF_ALG, HKDF_ALG_SHA256),
   (TLV_WRAPPED_DEK, List.replicate 24 1 ++ u32le 0),
   (TLV_PAYLOAD_NONCE, List.replicate 24 2)]

/-- Header byte string with the duplicate `kdf_salt` TLV. -/
def c4bytes : List Nat := headerBytesOfRecords c4records []

/-- A one-item payload satisfying the model invariants, for the C7 witness. -/
def c7pay : VaultPayloadV1 :=
  { schema_version := 1
    items := [{ id := 2, item_type := .login, name := ['a', 'l', 'p', 'h', 'a'],
                path := none, tags := [['d', 'e', 'v']], username := none,
                secret := [], urls := [['e', 'x', '.', 'c', 'o']], notes := none,
                created_at := 0, updated_at := 0 }] }

/-- Add input for the C7 witness (tags and urls deliberately unnormalised). -/
def c7add : AddItemInput :=
  { item_type := .apiToken, name := ['b', 'e', 't', 'a'], path := none,
    tags := [[' ', 'D', 'e', 'v', ' '], ['d', 'e', 'v']], username := none,
    secret := [], urls := [[' ', ' ']], notes := none }

/-- Edit input for the C7 witness: retag item 2 with an unnormalised list. -/
def c7edit : EditItemInput :=
  { id := 2, item_type := none, name := none, path := none, clear_path := false,
    tags := some [[' ', 'B', ' '], ['a']], clear_tags := false,
    username := none, clear_username := false, secret := none,
    urls := none, clear_urls := false, notes := none, clear_notes := false }

/-! ## Little-endian utility lemmas -/

theorem leNat_u16le {n : Nat} (h : n < 2 ^ 16) : leNat (u16le n) = n := by
  simp only [u16le, leNat]
  omega

theorem leNat_u32le {n : Nat} (h : n < 2 ^ 32) : leNat (u32le n) = n := by
  simp only [u32le, leNat]
  omega

@[simp] theorem length_u16le (n : Nat) : (u16le n).length = 2 := rfl

@[simp] theorem length_u32le (n : Nat) : (u32le n).length = 4 := rfl

@[simp] theorem length_random_bytes (r : Rng) (n : Nat) :
    (random_bytes r n).1.length = n := by
  simp [random_bytes]

theorem splitAtCloseBrace_length :
    ∀ {s nm r : Str}, splitAtCloseBrace s = some (nm, r) → r.length < s.length := by
  intro s
  induction s with
  | nil => intro nm r h; simp [splitAtCloseBrace] at h
  | cons c rest ih =>
    intro nm r h
    simp only [splitAtCloseBrace] at h
    by_cases hc : c = '}'
    · simp [hc] at h
      simp [← h.2]
    · simp only [hc, if_false, Option.map_eq_some'] at h
      obtain ⟨⟨n2, r2⟩, hp, heq⟩ := h
      have hlt := ih hp
      have hr2 : r = r2 := by
        have hsnd := congrArg Prod.snd heq
        simpa using hsnd.symm
      subst hr2
      simp only [List.length_cons]
      omega

/-! ## Round-trip of the v1 container format -/

theorem parseTlvs_nil (st : TlvState) : parseTlvs [] st = .ok st := by
  rw [parseTlvs]

@[simp] theorem length_push_tlv (t : Nat) (v : List Nat) :
    (push_tlv t v).length = 6 + v.length := by
  simp [push_tlv]
  omega

/-- One loop iteration of the TLV walk on an encoder-shaped record: reading
back the type and length recovers them, the value is carved out exactly, and
the walk continues behind it with whatever `processTlv` produced. -/
theorem parseTlvs_append_tlv' {t : Nat} {v rest : List Nat} {st : TlvState}
    (ht : t < 2 ^ 16) (hv : v.length < 2 ^ 32) :
    parseTlvs (push_tlv t v ++ rest) st
      = match processTlv t v st with
        | .error e => .error e
        | .ok st' => parseTlvs rest st' := by
  have hshape : push_tlv t v ++ rest = u16le t ++ (u32le v.length ++ (v ++ rest)) := by
    simp [push_tlv, List.append_assoc]
  have hcons : ∃ a l, push_tlv t v ++ rest = a :: l := by
    rw [hshape]; exact ⟨_, _, rfl⟩
  obtain ⟨a, l, hal⟩ := hcons
  rw [hal, parseTlvs]
  have hlen : (a :: l).length = 6 + (v.length + rest.length) := by
    rw [← hal]; simp [push_tlv]; omega
  have h6 : ¬ ((a :: l).length < 6) := by omega
  rw [dif_neg h6]
  have htake2 : (a :: l).take 2 = u16le t := by
    rw [← hal, hshape]; exact List.take_left' (by simp)
  have hdrop2 : (a :: l).drop 2 = u32le v.length ++ (v ++ rest) := by
    rw [← hal, hshape]; exact List.drop_left' (by simp)
  have htake4 : ((a :: l).drop 2).take 4 = u32le v.length := by
    rw [hdrop2]; exact List.take_left' (by simp)
  have hdrop6 : (a :: l).drop 6 = v ++ rest := by
    rw [← hal, hshape]
    have hgrp : u16le t ++ (u32le v.length ++ (v ++ rest))
        = (u16le t ++ u32le v.length) ++ (v ++ rest) := by
      simp [List.append_assoc]
    rw [hgrp]
    exact List.drop_left' (by simp)
  simp only [htake2, htake4, hdrop6, leNat_u16le ht, leNat_u32le hv]
  have hrl : ¬ ((v ++ rest).length < v.length) := by simp
  rw [dif_neg hrl, List.take_left' rfl, List.drop_left' rfl]

/-- Specialisation of the step lemma to a successful `processTlv`. -/
theorem parseTlvs_append_tlv {t : Nat} {v rest : List Nat} {st st' : TlvState}
    (ht : t < 2 ^ 16) (hv : v.length < 2 ^ 32)
    (hp : processTlv t v st = .ok st') :
    parseTlvs (push_tlv t v ++ rest) st = parseTlvs rest st' := by
  rw [parseTlvs_append_tlv' ht hv, hp]

theorem processTlv_argon2 {p : KdfParams} {st : TlvState}
    (hm : p.memory_kib < 2 ^ 32) (hi : p.iterations < 2 ^ 32)
    (hpl : p.parallelism < 2 ^ 32) :
    processTlv TLV_ARGON2_PARAMS (argon2ParamsValue p) st
      = .ok { st with kdf_params := some p } := by
  have hlen : (argon2ParamsValue p).length = 16 := by simp [argon2ParamsValue]
  have ha1 : argon2ParamsValue p
      = u32le p.memory_kib ++ (u32le p.iterations ++ (u32le p.parallelism ++
        u32le KDF_OUT_LEN)) := by
    simp [argon2ParamsValue, List.append_assoc]
  have ha2 : argon2ParamsValue p
      = (u32le p.memory_kib ++ u32le p.iterations) ++ (u32le p.parallelism ++
        u32le KDF_OUT_LEN) := by
    simp [argon2ParamsValue, List.append_assoc]
  have ha3 : argon2ParamsValue p
      = (u32le p.memory_kib ++ (u32le p.iterations ++ u32le p.parallelism)) ++
        u32le KDF_OUT_LEN := by
    simp [argon2ParamsValue, List.append_assoc]
  have h0 : (argon2ParamsValue p).take 4 = u32le p.memory_kib := by
    rw [ha1]; exact List.take_left' (by simp)
  have hd4 : (argon2ParamsValue p).drop 4
      = u32le p.iterations ++ (u32le p.parallelism ++ u32le KDF_OUT_LEN) := by
    rw [ha1]; exact List.drop_left' (by simp)
  have h4 : ((argon2ParamsValue p).drop 4).take 4 = u32le p.iterations := by
    rw [hd4]; exact List.take_left' (by simp)
  have hd8 : (argon2ParamsValue p).drop 8 = u32le p.parallelism ++ u32le KDF_OUT_LEN := by
    rw [ha2]; exact List.drop_left' (by simp)
  have h8 : ((argon2ParamsValue p).drop 8).take 4 = u32le p.parallelism := by
    rw [hd8]; exact List.take_left' (by simp)
  have hd12 : (argon2ParamsValue p).drop 12 = u32le KDF_OUT_LEN := by
    rw [ha3]; exact List.drop_left' (by simp)
  have h12 : ((argon2ParamsValue p).drop 12).take 4 = u32le KDF_OUT_LEN := by
    rw [hd12, List.take_of_length_le (by simp)]
  unfold processTlv
  rw [if_pos rfl, if_neg (by omega), h0, h4, h8, h12,
    leNat_u32le hm, leNat_u32le hi, leNat_u32le hpl,
    leNat_u32le (by decide), if_neg (by decide)]

theorem processTlv_salt {v : List Nat} {st : TlvState} (hv : v.length = 16) :
    processTlv TLV_KDF_SALT v st = .ok { st with kdf_salt := some v } := by
  unfold processTlv
  rw [if_neg (by decide), if_pos rfl, if_neg (by omega)]

theorem processTlv_kdf_alg {st : TlvState} :
    processTlv TLV_KDF_ALG KDF_ALG_ARGON2ID st = .ok { st with kdf_alg_ok := true } := by
  unfold processTlv
  rw [if_neg (by decide), if_neg (by decide), if_pos rfl, if_pos rfl]

theorem processTlv_aead_alg {st : TlvState} :
    processTlv TLV_AEAD_ALG AEAD_ALG_XCHACHA20POLY1305 st
      = .ok { st with aead_alg_ok := true } := by
  unfold processTlv
  rw [if_neg (by decide), if_neg (by decide), if_neg (by decide), if_pos rfl, if_pos rfl]

theorem processTlv_hkdf_alg {st : TlvState} :
    processTlv TLV_HKDF_ALG HKDF_ALG_SHA256 st = .ok { st with hkdf_alg_ok := true } := by
  unfold processTlv
  rw [if_neg (by decide), if_neg (by decide), if_neg (by decide), if_neg (by decide),
    if_pos rfl, if_pos rfl]

theorem processTlv_wrapped_dek {h : VaultHeaderV1} {st : TlvState}
    (hwn : h.wrap_nonce.length = 24) (hct : h.wrapped_dek.length < 2 ^ 32) :
    processTlv TLV_WRAPPED_DEK (wrappedDekValue h) st
      = .ok { st with wrap_nonce := some h.wrap_nonce,
                      wrapped_dek := some h.wrapped_dek } := by
  have hx : XCHACHA_NONCE_LEN = 24 := rfl
  have hw1 : wrappedDekValue h
      = h.wrap_nonce ++ (u32le h.wrapped_dek.length ++ h.wrapped_dek) := by
    simp [wrappedDekValue, List.append_assoc]
  have hlen : (wrappedDekValue h).length = 28 + h.wrapped_dek.length := by
    simp [wrappedDekValue, hwn]; omega
  have h24 : (wrappedDekValue h).take XCHACHA_NONCE_LEN = h.wrap_nonce := by
    rw [hw1, hx]; exact List.take_left' hwn
  have hd24 : (wrappedDekValue h).drop XCHACHA_NONCE_LEN
      = u32le h.wrapped_dek.length ++ h.wrapped_dek := by
    rw [hw1, hx]; exact List.drop_left' hwn
  have hlen4 : ((wrappedDekValue h).drop XCHACHA_NONCE_LEN).take 4
      = u32le h.wrapped_dek.length := by
    rw [hd24]; exact List.take_left' (by simp)
  have hd28 : (wrappedDekValue h).drop (XCHACHA_NONCE_LEN + 4) = h.wrapped_dek := by
    have hx4 : XCHACHA_NONCE_LEN + 4 = 28 := rfl
    rw [hx4]
    unfold wrappedDekValue
    exact List.drop_left' (by simp [hwn])
  unfold processTlv
  rw [if_neg (by decide), if_neg (by decide), if_neg (by decide), if_neg (by decide),
    if_neg (by decide), if_pos rfl, if_neg (by rw [hlen, hx]; omega), hlen4,
    leNat_u32le hct, hd28, if_neg (by omega), h24]

theorem processTlv_payload_nonce {v : List Nat} {st : TlvState} (hv : v.length = 24) :
    processTlv TLV_PAYLOAD_NONCE v st = .ok { st with payload_nonce := some v } := by
  unfold processTlv
  rw [if_neg (by decide), if_neg (by decide), if_neg (by decide), if_neg (by decide),
    if_neg (by decide), if_neg (by decide), if_pos rfl, if_neg (by rw [hv]; decide)]

theorem length_encodeTlvBlock {h : VaultHeaderV1}
    (hsalt : h.kdf_salt.length = 16) (hwn : h.wrap_nonce.length = 24)
    (hpn : h.payload_nonce.length = 24) :
    (encodeTlvBlock h).length = 162 + h.wrapped_dek.length := by
  simp [encodeTlvBlock, length_push_tlv, argon2ParamsValue, wrappedDekValue,
    hsalt, hwn, hpn, KDF_ALG_ARGON2ID, AEAD_ALG_XCHACHA20POLY1305, HKDF_ALG_SHA256]
  omega

/-- Shared round-trip core: parsing the encoder output (with any ciphertext
trailer) recovers the header and the trailer, whenever the header fields
have their v1 sizes and the encoded lengths fit in `u32`. -/
theorem parse_encode_header {h : VaultHeaderV1} (c : List Nat)
    (hsalt : h.kdf_salt.length = 16)
    (hwn : h.wrap_nonce.length = 24)
    (hpn : h.payload_nonce.length = 24)
    (hm : h.kdf_params.memory_kib < 2 ^ 32)
    (hi : h.kdf_params.iterations < 2 ^ 32)
    (hpar : h.kdf_params.parallelism < 2 ^ 32)
    (hd : 176 + h.wrapped_dek.length < 2 ^ 32) :
    parse_vault_v1 (encode_header_v1 h ++ c) = .ok ⟨h, c⟩ := by
  have hT : (encodeTlvBlock h).length = 162 + h.wrapped_dek.length :=
    length_encodeTlvBlock hsalt hwn hpn
  have hEnc : encode_header_v1 h
      = MAGIC ++ u16le VERSION_V1 ++ u32le (FIXED_HEADER_LEN + (encodeTlvBlock h).length)
        ++ encodeTlvBlock h := rfl
  have hhl : FIXED_HEADER_LEN + (encodeTlvBlock h).length
      = 176 + h.wrapped_dek.length := by
    rw [hT]; unfold FIXED_HEADER_LEN; omega
  have hshape : encode_header_v1 h ++ c
      = MAGIC ++ (u16le VERSION_V1 ++
          (u32le (FIXED_HEADER_LEN + (encodeTlvBlock h).length) ++
            (encodeTlvBlock h ++ c))) := by
    rw [hEnc]; simp [List.append_assoc]
  have hshape10 : encode_header_v1 h ++ c
      = (MAGIC ++ u16le VERSION_V1) ++
          (u32le (FIXED_HEADER_LEN + (encodeTlvBlock h).length) ++
            (encodeTlvBlock h ++ c)) := by
    rw [hEnc]; simp [List.append_assoc]
  have hshape14 : encode_header_v1 h ++ c
      = (MAGIC ++ u16le VERSION_V1 ++
          u32le (FIXED_HEADER_LEN + (encodeTlvBlock h).length)) ++
          (encodeTlvBlock h ++ c) := by
    rw [hEnc]; simp [List.append_assoc]
  have hBl : (encode_header_v1 h ++ c).length
      = 14 + (encodeTlvBlock h).length + c.length := by
    rw [hshape]; simp [MAGIC]; omega
  have htake8 : (encode_header_v1 h ++ c).take 8 = MAGIC := by
    rw [hshape]; exact List.take_left' rfl
  have hdrop8 : (encode_header_v1 h ++ c).drop 8
      = u16le VERSION_V1 ++
          (u32le (FIXED_HEADER_LEN + (encodeTlvBlock h).length) ++
            (encodeTlvBlock h ++ c)) := by
    rw [hshape]; exact List.drop_left' rfl
  have hver : ((encode_header_v1 h ++ c).drop 8).take 2 = u16le VERSION_V1 := by
    rw [hdrop8]; exact List.take_left' rfl
  have hdrop10 : (encode_header_v1 h ++ c).drop 10
      = u32le (FIXED_HEADER_LEN + (encodeTlvBlock h).length) ++
          (encodeTlvBlock h ++ c) := by
    rw [hshape10]; exact List.drop_left' (by simp [MAGIC])
  have hhlen : ((encode_header_v1 h ++ c).drop 10).take 4
      = u32le (FIXED_HEADER_LEN + (encodeTlvBlock h).length) := by
    rw [hdrop10]; exact List.take_left' rfl
  have hfix : parse_fixed_header (encode_header_v1 h ++ c)
      = .ok ⟨VERSION_V1, FIXED_HEADER_LEN + (encodeTlvBlock h).length⟩ := by
    unfold parse_fixed_header
    rw [if_neg (by rw [hBl]; unfold FIXED_HEADER_LEN; omega), if_neg (by rw [htake8]; simp)]
    rw [hver, hhlen, leNat_u32le (by rw [hhl]; omega)]
    rw [if_neg (by rw [leNat_u16le (by decide)]; decide)]
    rw [leNat_u16le (by decide)]
    rw [if_neg (by rw [hBl, hhl, hT]; simp [FIXED_HEADER_LEN]; omega)]
  have hdrop14 : (encode_header_v1 h ++ c).drop FIXED_HEADER_LEN
      = encodeTlvBlock h ++ c := by
    rw [hshape14]; exact List.drop_left' (by simp [MAGIC, FIXED_HEADER_LEN])
  have htlvslice : ((encode_header_v1 h ++ c).drop FIXED_HEADER_LEN).take
      (FIXED_HEADER_LEN + (encodeTlvBlock h).length - FIXED_HEADER_LEN)
      = encodeTlvBlock h := by
    rw [hdrop14]
    have hn : FIXED_HEADER_LEN + (encodeTlvBlock h).length - FIXED_HEADER_LEN
        = (encodeTlvBlock h).length := by omega
    rw [hn]
    exact List.take_left' rfl
  have hpayload : (encode_header_v1 h ++ c).drop
      (FIXED_HEADER_LEN + (encodeTlvBlock h).length) = c := by
    apply List.drop_left'
    rw [hEnc]
    simp [MAGIC, FIXED_HEADER_LEN]
    omega
  have hTshape : encodeTlvBlock h
      = push_tlv TLV_ARGON2_PARAMS (argon2ParamsValue h.kdf_params) ++
        (push_tlv TLV_KDF_SALT h.kdf_salt ++
        (push_tlv TLV_KDF_ALG KDF_ALG_ARGON2ID ++
        (push_tlv TLV_AEAD_ALG AEAD_ALG_XCHACHA20POLY1305 ++
        (push_tlv TLV_HKDF_ALG HKDF_ALG_SHA256 ++
        (push_tlv TLV_WRAPPED_DEK (wrappedDekValue h) ++
        (push_tlv TLV_PAYLOAD_NONCE h.payload_nonce ++ [])))))) := by
    simp [encodeTlvBlock, List.append_assoc]
  have hwalk : parseTlvs (encodeTlvBlock h) initTlvState
      = .ok ⟨some h.kdf_params, some h.kdf_salt, true, true, true,
             some h.wrap_nonce, some h.wrapped_dek, some h.payload_nonce⟩ := by
    rw [hTshape,
      parseTlvs_append_tlv (by decide) (by simp [argon2ParamsValue])
        (processTlv_argon2 hm hi hpar),
      parseTlvs_append_tlv (by decide) (by rw [hsalt]; decide)
        (processTlv_salt hsalt),
      parseTlvs_append_tlv (by decide) (by decide) processTlv_kdf_alg,
      parseTlvs_append_tlv (by decide) (by decide) processTlv_aead_alg,
      parseTlvs_append_tlv (by decide) (by decide) processTlv_hkdf_alg,
      parseTlvs_append_tlv (by decide)
        (by simp [wrappedDekValue, hwn]; omega)
        (processTlv_wrapped_dek hwn (by omega)),
      parseTlvs_append_tlv (by decide) (by rw [hpn]; decide)
        (processTlv_payload_nonce hpn),
      parseTlvs_nil]
  unfold parse_vault_v1
  rw [hfix]
  simp only []
  rw [htlvslice, hwalk]
  simp only [hpayload]
  simp [assembleV1]

/-- General layout lemma: parsing a byte string made of magic, version 1, a
correct header length, an arbitrary TLV region `T` and a trailer `c` reduces
to the TLV walk over `T` followed by the assembly step. -/
theorem parse_vault_v1_layout (T c : List Nat)
    (hlen : FIXED_HEADER_LEN + T.length < 2 ^ 32) :
    parse_vault_v1
        (MAGIC ++ (u16le VERSION_V1 ++ (u32le (FIXED_HEADER_LEN + T.length) ++ (T ++ c))))
      = match parseTlvs T initTlvState with
        | .error e => .error e
        | .ok st => assembleV1 st c := by
  set bs : List Nat :=
    MAGIC ++ (u16le VERSION_V1 ++ (u32le (FIXED_HEADER_LEN + T.length) ++ (T ++ c)))
    with hbs
  have hshape10 : bs
      = (MAGIC ++ u16le VERSION_V1) ++
          (u32le (FIXED_HEADER_LEN + T.length) ++ (T ++ c)) := by
    rw [hbs]; simp [List.append_assoc]
  have hshape14 : bs
      = (MAGIC ++ u16le VERSION_V1 ++ u32le (FIXED_HEADER_LEN + T.length)) ++
          (T ++ c) := by
    rw [hbs]; simp [List.append_assoc]
  have hBl : bs.length = 14 + T.length + c.length := by
    rw [hbs]; simp [MAGIC]; omega
  have htake8 : bs.take 8 = MAGIC := by
    rw [hbs]; exact List.take_left' rfl
  have hdrop8 : bs.drop 8
      = u16le VERSION_V1 ++ (u32le (FIXED_HEADER_LEN + T.length) ++ (T ++ c)) := by
    rw [hbs]; exact List.drop_left' rfl
  have hver : (bs.drop 8).take 2 = u16le VERSION_V1 := by
    rw [hdrop8]; exact List.take_left' rfl
  have hdrop10 : bs.drop 10
      = u32le (FIXED_HEADER_LEN + T.length) ++ (T ++ c) := by
    rw [hshape10]; exact List.drop_left' (by simp [MAGIC])
  have hhlen : (bs.drop 10).take 4 = u32le (FIXED_HEADER_LEN + T.length) := by
    rw [hdrop10]; exact List.take_left' rfl
  have hfix : parse_fixed_header bs = .ok ⟨VERSION_V1, FIXED_HEADER_LEN + T.length⟩ := by
    unfold parse_fixed_header
    rw [if_neg (by rw [hBl]; unfold FIXED_HEADER_LEN; omega),
      if_neg (by rw [htake8]; simp)]
    rw [hver, hhlen, leNat_u32le hlen]
    rw [if_neg (by rw [leNat_u16le (by decide)]; decide)]
    rw [leNat_u16le (by decide)]
    rw [if_neg (by rw [hBl]; unfold FIXED_HEADER_LEN; omega)]
  have hdrop14 : bs.drop FIXED_HEADER_LEN = T ++ c := by
    rw [hshape14]; exact List.drop_left' (by simp [MAGIC, FIXED_HEADER_LEN])
  have htlvslice : (bs.drop FIXED_HEADER_LEN).take
      (FIXED_HEADER_LEN + T.length - FIXED_HEADER_LEN) = T := by
    rw [hdrop14]
    have hn : FIXED_HEADER_LEN + T.length - FIXED_HEADER_LEN = T.length := by omega
    rw [hn]
    exact List.take_left' rfl
  have hpayload : bs.drop (FIXED_HEADER_LEN + T.length) = c := by
    have hshape14T : bs
        = (MAGIC ++ u16le VERSION_V1 ++ u32le (FIXED_HEADER_LEN + T.length) ++ T) ++ c := by
      rw [hbs]; simp [List.append_assoc]
    rw [hshape14T]
    exact List.drop_left' (by simp [MAGIC, FIXED_HEADER_LEN]; omega)
  unfold parse_vault_v1
  rw [hfix]
  simp only []
  rw [htlvslice, hpayload]

/-! ## Record-level view of the TLV walk (for C4) -/

theorem parseTlvs_encodeRecords :
    ∀ (rs : List (Nat × List Nat)),
      (∀ r ∈ rs, r.1 < 2 ^ 16 ∧ r.2.length < 2 ^ 32) →
      ∀ st, parseTlvs (encodeRecords rs) st = foldTlvRecords rs st := by
  intro rs
  induction rs with
  | nil =>
    intro _ st
    rw [show encodeRecords [] = [] from rfl, parseTlvs_nil]
    rfl
  | cons r rest ih =>
    intro hwf st
    obtain ⟨t, v⟩ := r
    have hr := hwf (t, v) (by simp)
    have henc : encodeRecords ((t, v) :: rest) = push_tlv t v ++ encodeRecords rest := by
      simp [encodeRecords]
    rw [henc, parseTlvs_append_tlv' hr.1 hr.2]
    have hfold : foldTlvRecords ((t, v) :: rest) st
        = match processTlv t v st with
          | .error e => .error e
          | .ok st' => foldTlvRecords rest st' := rfl
    rw [hfold]
    cases hp : processTlv t v st with
    | error e => rfl
    | ok st' =>
      simp only []
      exact ih (fun r hm => hwf r (List.mem_cons_of_mem _ hm)) st'

theorem tlvValues_cons (t' t : Nat) (v : List Nat) (rs : List (Nat × List Nat)) :
    tlvValues t' ((t, v) :: rs)
      = if t = t' then v :: tlvValues t' rs else tlvValues t' rs := by
  by_cases ht : t = t' <;> simp [tlvValues, List.filterMap_cons, ht]

/-- Field view of one `processTlv` success: each header field is overwritten
when the record has its type and is untouched otherwise. -/
theorem processTlv_ok_fields {t : Nat} {v : List Nat} {st st' : TlvState}
    (hp : processTlv t v st = .ok st') :
    st'.kdf_params
      = (if t = TLV_ARGON2_PARAMS then some (decodeArgon2 v) else st.kdf_params) ∧
    st'.kdf_salt = (if t = TLV_KDF_SALT then some v else st.kdf_salt) ∧
    st'.wrap_nonce
      = (if t = TLV_WRAPPED_DEK then some (v.take XCHACHA_NONCE_LEN)
         else st.wrap_nonce) ∧
    st'.wrapped_dek
      = (if t = TLV_WRAPPED_DEK then some (v.drop (XCHACHA_NONCE_LEN + 4))
         else st.wrapped_dek) ∧
    st'.payload_nonce = (if t = TLV_PAYLOAD_NONCE then some v else st.payload_nonce) := by
  unfold processTlv at hp
  simp only [] at hp
  split_ifs at hp <;>
    first
    | exact Except.noConfusion hp
    | (injection hp with hp
       subst hp
       simp_all [decodeArgon2, TLV_ARGON2_PARAMS, TLV_KDF_SALT, TLV_KDF_ALG,
         TLV_AEAD_ALG, TLV_HKDF_ALG, TLV_WRAPPED_DEK, TLV_PAYLOAD_NONCE])

theorem foldl_overwrite {α β : Type} (f : α → β) :
    ∀ (l : List α) (i : Option β),
      l.foldl (fun _ v => some (f v)) i
        = match l.getLast? with
          | some v => some (f v)
          | none => i := by
  intro l
  induction l with
  | nil => intro i; rfl
  | cons a l ih =>
    intro i
    rw [List.foldl_cons, ih]
    cases l with
    | nil => rfl
    | cons b l2 =>
      rw [List.getLast?_cons_cons]
      cases hl : (b :: l2).getLast? with
      | none => rw [List.getLast?_eq_none_iff] at hl; cases hl
      | some v => rfl

/-- State after a successful record walk: each of the four value-carrying
fields holds the decoded value of the LAST record of its type, or the
starting value when no record of that type occurs. -/
theorem foldTlvRecords_fields :
    ∀ (rs : List (Nat × List Nat)) (st st' : TlvState),
      foldTlvRecords rs st = .ok st' →
      st'.kdf_params
        = (tlvValues TLV_ARGON2_PARAMS rs).foldl
            (fun _ v => some (decodeArgon2 v)) st.kdf_params ∧
      st'.kdf_salt
        = (tlvValues TLV_KDF_SALT rs).foldl (fun _ v => some v) st.kdf_salt ∧
      st'.wrap_nonce
        = (tlvValues TLV_WRAPPED_DEK rs).foldl
            (fun _ v => some (v.take XCHACHA_NONCE_LEN)) st.wrap_nonce ∧
      st'.wrapped_dek
        = (tlvValues TLV_WRAPPED_DEK rs).foldl
            (fun _ v => some (v.drop (XCHACHA_NONCE_LEN + 4))) st.wrapped_dek ∧
      st'.payload_nonce
        = (tlvValues TLV_PAYLOAD_NONCE rs).foldl (fun _ v => some v) st.payload_nonce := by
  intro rs
  induction rs with
  | nil =>
    intro st st' h
    have hst : st = st' := by
      injection h
    subst hst
    simp [tlvValues]
  | cons r rest ih =>
    intro st st' h
    obtain ⟨t, v⟩ := r
    have hfold : foldTlvRecords ((t, v) :: rest) st
        = match processTlv t v st with
          | .error e => .error e
          | .ok st1 => foldTlvRecords rest st1 := rfl
    rw [hfold] at h
    cases hp : processTlv t v st with
    | error e => rw [hp] at h; exact Except.noConfusion h
    | ok st1 =>
      rw [hp] at h
      simp only [] at h
      obtain ⟨ihp, ihs, ihw, ihd, ihn⟩ := ih st1 st' h
      obtain ⟨fp, fs, fw, fd, fn⟩ := processTlv_ok_fields hp
      refine ⟨?_, ?_, ?_, ?_, ?_⟩
      · rw [ihp, fp, tlvValues_cons]
        by_cases ht : t = TLV_ARGON2_PARAMS
        · simp [ht]
        · simp [ht]
      · rw [ihs, fs, tlvValues_cons]
        by_cases ht : t = TLV_KDF_SALT
        · simp [ht]
        · simp [ht]
      · rw [ihw, fw, tlvValues_cons]
        by_cases ht : t = TLV_WRAPPED_DEK
        · simp [ht]
        · simp [ht]
      · rw [ihd, fd, tlvValues_cons]
        by_cases ht : t = TLV_WRAPPED_DEK
        · simp [ht]
        · simp [ht]
      · rw [ihn, fn, tlvValues_cons]
        by_cases ht : t = TLV_PAYLOAD_NONCE
        · simp [ht]
        · simp [ht]

/-- Inversion of the assembly step: success pins every header field to the
corresponding `some` in the walked state, and the trailer to the payload. -/
theorem assembleV1_ok {st : TlvState} {c : List Nat} {pv : ParsedVaultV1}
    (h : assembleV1 st c = .ok pv) :
    st.kdf_params = some pv.header.kdf_params ∧
    st.kdf_salt = some pv.header.kdf_salt ∧
    st.wrap_nonce = some pv.header.wrap_nonce ∧
    st.wrapped_dek = some pv.header.wrapped_dek ∧
    st.payload_nonce = some pv.header.payload_nonce ∧
    pv.payload_ciphertext = c := by
  unfold assembleV1 at h
  split_ifs at h <;> try exact Except.noConfusion h
  cases hkp : st.kdf_params with
    | none => rw [hkp] at h; exact Except.noConfusion h
    | some kp =>
      rw [hkp] at h
      cases hks : st.kdf_salt with
      | none => rw [hks] at h; exact Except.noConfusion h
      | some ks =>
        rw [hks] at h
        cases hwn : st.wrap_nonce with
        | none => rw [hwn] at h; exact Except.noConfusion h
        | some wn =>
          rw [hwn] at h
          cases hwd : st.wrapped_dek with
          | none => rw [hwd] at h; exact Except.noConfusion h
          | some wd =>
            rw [hwd] at h
            cases hpn : st.payload_nonce with
            | none => rw [hpn] at h; exact Except.noConfusion h
            | some pn =>
              rw [hpn] at h
              injection h with h
              subst h
              simp

/-! ## Claim C1 -/

/-- C1: for every vault header (valid KdfParams below `2^32`, 16-byte salt,
24-byte wrap and payload nonces, arbitrary wrapped-DEK bytes whose encoded
sizes fit in `u32`) and every ciphertext byte string, `parse_vault_v1` on
`encode_header_v1 h ++ c` succeeds and returns the header field-by-field
together with the ciphertext: parse after encode is the identity. -/
theorem c1_parse_after_encode_identity (h : VaultHeaderV1) (c : List Nat)
    (hsalt : h.kdf_salt.length = 16)
    (hwn : h.wrap_nonce.length = 24)
    (hpn : h.payload_nonce.length = 24)
    (hm : h.kdf_params.memory_kib < 2 ^ 32)
    (hi : h.kdf_params.iterations < 2 ^ 32)
    (hpar : h.kdf_params.parallelism < 2 ^ 32)
    (hd : 176 + h.wrapped_dek.length < 2 ^ 32) :
    parse_vault_v1 (encode_header_v1 h ++ c) = .ok ⟨h, c⟩ :=
  parse_encode_header c hsalt hwn hpn hm hi hpar hd

/-- Witness for C1 at the concrete test header and a two-byte ciphertext. -/
theorem c1_parse_after_encode_identity_witness :
    parse_vault_v1 (encode_header_v1 wHdr ++ [7, 7]) = .ok ⟨wHdr, [7, 7]⟩ :=
  c1_parse_after_encode_identity wHdr [7, 7] (by decide) (by decide) (by decide)
    (by decide) (by decide) (by decide) (by decide)

/-! ## Claim C4 -/

unseal parseTlvs in
set_option maxRecDepth 10000 in
/-- C4 as stated is false: in this header byte string the `kdf_salt` TLV
appears twice with different values, parsing succeeds, and the salt of the
parsed header is the SECOND occurrence, not the first. -/
theorem c4_first_occurrence_counterexample :
    parse_vault_v1 c4bytes
      = .ok ⟨⟨⟨1, 1, 1⟩, List.replicate 16 0xBB, List.replicate 24 1, [],
              List.replicate 24 2⟩, []⟩
    ∧ (List.replicate 16 0xBB : List Nat) ≠ List.replicate 16 0xAA := by
  constructor
  · decide
  · decide

/-- C4 (amended): for every header byte string (presented as its list of TLV
records) in which `parse_vault_v1` succeeds, the value used for
`argon2_params`, `kdf_salt`, `wrapped_dek` and `payload_nonce` is the one
from the LAST occurrence of that TLV type. -/
theorem c4_duplicate_tlv_last_wins (rs : List (Nat × List Nat)) (c : List Nat)
    (pv : ParsedVaultV1)
    (hwf : ∀ r ∈ rs, r.1 < 2 ^ 16 ∧ r.2.length < 2 ^ 32)
    (hlen : FIXED_HEADER_LEN + (encodeRecords rs).length < 2 ^ 32)
    (hok : parse_vault_v1 (headerBytesOfRecords rs c) = .ok pv) :
    (tlvValues TLV_KDF_SALT rs).getLast? = some pv.header.kdf_salt ∧
    ((tlvValues TLV_ARGON2_PARAMS rs).map decodeArgon2).getLast?
      = some pv.header.kdf_params ∧
    ((tlvValues TLV_WRAPPED_DEK rs).map
        (fun v => v.drop (XCHACHA_NONCE_LEN + 4))).getLast?
      = some pv.header.wrapped_dek ∧
    (tlvValues TLV_PAYLOAD_NONCE rs).getLast? = some pv.header.payload_nonce := by
  unfold headerBytesOfRecords at hok
  rw [parse_vault_v1_layout _ _ hlen] at hok
  cases hw : parseTlvs (encodeRecords rs) initTlvState with
  | error e => rw [hw] at hok; exact Except.noConfusion hok
  | ok st =>
    rw [hw] at hok
    simp only [] at hok
    rw [parseTlvs_encodeRecords rs hwf] at hw
    obtain ⟨fp, fs, fwn, fwd, fn⟩ := foldTlvRecords_fields rs _ _ hw
    obtain ⟨ap, asalt, awn, awd, an, ac⟩ := assembleV1_ok hok
    rw [foldl_overwrite (fun v => v)] at fs
    rw [foldl_overwrite decodeArgon2] at fp
    rw [foldl_overwrite (fun (v : List Nat) => List.drop (XCHACHA_NONCE_LEN + 4) v)] at fwd
    rw [foldl_overwrite (fun v => v)] at fn
    refine ⟨?_, ?_, ?_, ?_⟩
    · rw [asalt] at fs
      cases hgl : (tlvValues TLV_KDF_SALT rs).getLast? with
      | none => rw [hgl] at fs; exact Option.noConfusion fs
      | some v => rw [hgl] at fs; simp only [] at fs; rw [← fs]
    · rw [List.getLast?_map]
      rw [ap] at fp
      cases hgl : (tlvValues TLV_ARGON2_PARAMS rs).getLast? with
      | none => rw [hgl] at fp; exact Option.noConfusion fp
      | some v =>
        rw [hgl] at fp
        simp only [] at fp
        injection fp with fp
        simp [fp]
    · rw [List.getLast?_map]
      rw [awd] at fwd
      cases hgl : (tlvValues TLV_WRAPPED_DEK rs).getLast? with
      | none => rw [hgl] at fwd; exact Option.noConfusion fwd
      | some v =>
        rw [hgl] at fwd
        simp only [] at fwd
        injection fwd with fwd
        simp [fwd]
    · rw [an] at fn
      cases hgl : (tlvValues TLV_PAYLOAD_NONCE rs).getLast? with
      | none => rw [hgl] at fn; exact Option.noConfusion fn
      | some v => rw [hgl] at fn; simp only [] at fn; rw [← fn]

/-! ## Claim C3 -/

theorem strContains_iff : ∀ (hay q : Str), strContains hay q = true ↔ q <:+: hay := by
  intro hay
  induction hay with
  | nil =>
    intro q
    rw [strContains]
    cases q with
    | nil => simp [List.isPrefixOf]
    | cons a q2 => simp [List.isPrefixOf]
  | cons c t ih =>
    intro q
    rw [strContains]
    by_cases hp : q.isPrefixOf (c :: t) = true
    · rw [if_pos hp]
      simp only [true_iff]
      rw [List.infix_cons_iff]
      exact Or.inl (List.isPrefixOf_iff_prefix.mp hp)
    · rw [if_neg hp]
      rw [ih, List.infix_cons_iff]
      have hnp : ¬ q <+: (c :: t) := fun hx => hp (List.isPrefixOf_iff_prefix.mpr hx)
      constructor
      · exact Or.inr
      · intro hor
        cases hor with
        | inl hx => exact absurd hx hnp
        | inr hx => exact hx

/-- C3 as stated is false: the source trims the query before matching, so
the query consisting of `git` with surrounding spaces returns the `github`
item although it is not a case-insensitive substring of any field. -/
theorem c3_search_claim_counterexample :
    vault_search_items_v1 [c3item] c3query ≠ claimSearch [c3item] c3query := by
  decide

/-- Pointwise bridge for C3: the source-level match on the trimmed and
lowercased query coincides with the amended predicate. -/
theorem item_matches_query_iff (it : VaultItemV1) (query : Str) :
    item_matches_query it (toLowerStr (trimStr query)) = true ↔ AmendedMatch it query := by
  have hif : ∀ (b x : Bool), (if b then true else x) = (b || x) := by
    intro b x; cases b <;> simp
  unfold item_matches_query
  rw [hif, hif, hif, hif, hif, hif]
  simp only [Bool.or_eq_true, Bool.or_false, List.any_eq_true, strContains_iff]
  unfold AmendedMatch CiSub
  cases hp : it.path <;> cases hu : it.username <;> cases hn : it.notes <;>
    simp [strContains_iff]

/-- C3 (amended): vault search trims and lowercases the query; a query that
trims to nothing returns the empty list, and otherwise exactly the items
matching the trimmed query are returned — case-insensitively against name,
path, username, urls and notes, and against the stored tag bytes for tags. -/
theorem c3_search_amended (items : List VaultItemV1) (query : Str) :
    vault_search_items_v1 items query
      = if trimStr query = [] then []
        else items.filter (fun it => decide (AmendedMatch it query)) := by
  unfold vault_search_items_v1
  have hempty : (toLowerStr (trimStr query)).isEmpty = true ↔ trimStr query = [] := by
    unfold toLowerStr
    cases trimStr query <;> simp [List.isEmpty]
  by_cases hq : trimStr query = []
  · rw [if_pos hq, if_pos (hempty.mpr hq)]
  · rw [if_neg hq, if_neg (fun hx => hq (hempty.mp hx))]
    apply List.filter_congr
    intro it _
    by_cases hP : AmendedMatch it query
    · rw [(item_matches_query_iff it query).mpr hP]
      simp [hP]
    · have hne : ¬ item_matches_query it (toLowerStr (trimStr query)) = true :=
        fun hc => hP ((item_matches_query_iff it query).mp hc)
      rw [Bool.not_eq_true] at hne
      rw [hne]
      simp [hP]

/-! ## Claim C5 -/

theorem editFirst_of_find? :
    ∀ (items : List VaultItemV1) (input : EditItemInput) (now : Nat)
      (it : VaultItemV1),
      items.find? (fun i => i.id = input.id) = some it →
      ∃ l', editFirst items input now = some l' ∧ edit_one it input now ∈ l' := by
  intro items input now
  induction items with
  | nil => intro it h; simp at h
  | cons i rest ih =>
    intro it h
    by_cases hid : i.id = input.id
    · rw [List.find?_cons_of_pos _ (by simp [hid])] at h
      injection h with h
      subst h
      exact ⟨edit_one i input now :: rest, by simp [editFirst, hid], by simp⟩
    · rw [List.find?_cons_of_neg _ (by simp [hid])] at h
      obtain ⟨l', hl, hm⟩ := ih it h
      exact ⟨i :: l', by simp [editFirst, hid, hl], by simp [hm]⟩

/-- C5: `vault_edit_item_v1` applies each tri-state independently — clear
wins over set, keep leaves the previous value, the secret can only be set,
`created_at` is untouched, `updated_at` becomes the supplied current time,
and an all-keep edit changes nothing but `updated_at`.  The edited item is
the found item threaded through `edit_one` and is part of the resulting
payload. -/
theorem c5_edit_tri_state (payload : VaultPayloadV1) (input : EditItemInput)
    (now : Nat) (it : VaultItemV1)
    (hfind : payload.items.find? (fun i => i.id = input.id) = some it) :
    (∃ p', edit_item_payload payload input now = .ok p' ∧
      edit_one it input now ∈ p'.items) ∧
    (input.clear_path = true → (edit_one it input now).path = none) ∧
    (input.clear_path = false → input.path = none →
      (edit_one it input now).path = it.path) ∧
    (∀ v, input.clear_path = false → input.path = some v →
      (edit_one it input now).path = some v) ∧
    (input.clear_tags = true → (edit_one it input now).tags = []) ∧
    (input.clear_tags = false → input.tags = none →
      (edit_one it input now).tags = it.tags) ∧
    (∀ v, input.clear_tags = false → input.tags = some v →
      (edit_one it input now).tags = normalize_tags v) ∧
    (input.clear_username = true → (edit_one it input now).username = none) ∧
    (input.clear_username = false → input.username = none →
      (edit_one it input now).username = it.username) ∧
    (∀ v, input.clear_username = false → input.username = some v →
      (edit_one it input now).username = some v) ∧
    (input.clear_urls = true → (edit_one it input now).urls = []) ∧
    (input.clear_urls = false → input.urls = none →
      (edit_one it input now).urls = it.urls) ∧
    (∀ v, input.clear_urls = false → input.urls = some v →
      (edit_one it input now).urls = normalize_urls v) ∧
    (input.clear_notes = true → (edit_one it input now).notes = none) ∧
    (input.clear_notes = false → input.notes = none →
      (edit_one it input now).notes = it.notes) ∧
    (∀ v, input.clear_notes = false → input.notes = some v →
      (edit_one it input now).notes = some v) ∧
    (input.secret = none → (edit_one it input now).secret = it.secret) ∧
    (∀ v, input.secret = some v → (edit_one it input now).secret = v) ∧
    (input.item_type = none → (edit_one it input now).item_type = it.item_type) ∧
    (∀ v, input.item_type = some v → (edit_one it input now).item_type = v) ∧
    (input.name = none → (edit_one it input now).name = it.name) ∧
    (∀ v, input.name = some v → (edit_one it input now).name = v) ∧
    (edit_one it input now).created_at = it.created_at ∧
    (edit_one it input now).updated_at = now ∧
    (input.item_type = none → input.name = none →
     input.path = none → input.clear_path = false →
     input.tags = none → input.clear_tags = false →
     input.username = none → input.clear_username = false →
     input.secret = none →
     input.urls = none → input.clear_urls = false →
     input.notes = none → input.clear_notes = false →
     edit_one it input now = { it with updated_at := now }) := by
  refine ⟨?_, ?_, ?_, ?_, ?_, ?_, ?_, ?_, ?_, ?_, ?_, ?_, ?_, ?_, ?_, ?_, ?_, ?_,
    ?_, ?_, ?_, ?_, ?_, ?_, ?_⟩
  · obtain ⟨l', hl, hm⟩ := editFirst_of_find? payload.items input now it hfind
    exact ⟨{ payload with items := l'.mergeSort item_sort_le },
      by simp [edit_item_payload, hl], by simp [hm]⟩
  · intro h; simp [edit_one, h]
  · intro h1 h2; simp [edit_one, h1, h2]
  · intro v h1 h2; simp [edit_one, h1, h2]
  · intro h; simp [edit_one, h]
  · intro h1 h2; simp [edit_one, h1, h2]
  · intro v h1 h2; simp [edit_one, h1, h2]
  · intro h; simp [edit_one, h]
  · intro h1 h2; simp [edit_one, h1, h2]
  · intro v h1 h2; simp [edit_one, h1, h2]
  · intro h; simp [edit_one, h]
  · intro h1 h2; simp [edit_one, h1, h2]
  · intro v h1 h2; simp [edit_one, h1, h2]
  · intro h; simp [edit_one, h]
  · intro h1 h2; simp [edit_one, h1, h2]
  · intro v h1 h2; simp [edit_one, h1, h2]
  · intro h; simp [edit_one, h]
  · intro v h; simp [edit_one, h]
  · intro h; simp [edit_one, h]
  · intro v h; simp [edit_one, h]
  · intro h; simp [edit_one, h]
  · intro v h; simp [edit_one, h]
  · simp [edit_one]
  · simp [edit_one]
  · intro h1 h2 h3 h4 h5 h6 h7 h8 h9 h10 h11 h12 h13
    simp [edit_one, h1, h2, h3, h4, h5, h6, h7, h8, h9, h10, h11, h12, h13]

/-- Witness for C5: an edit that clears the tags while also supplying a new
path on the stored test item. -/
theorem c5_edit_tri_state_witness :
    (∃ p', edit_item_payload ⟨1, [wItem]⟩ w5input 9 = .ok p' ∧
      edit_one wItem w5input 9 ∈ p'.items) ∧
    (w5input.clear_path = true → (edit_one wItem w5input 9).path = none) ∧
    (w5input.clear_path = false → w5input.path = none →
      (edit_one wItem w5input 9).path = wItem.path) ∧
    (∀ v, w5input.clear_path = false → w5input.path = some v →
      (edit_one wItem w5input 9).path = some v) ∧
    (w5input.clear_tags = true → (edit_one wItem w5input 9).tags = []) ∧
    (w5input.clear_tags = false → w5input.tags = none →
      (edit_one wItem w5input 9).tags = wItem.tags) ∧
    (∀ v, w5input.clear_tags = false → w5input.tags = some v →
      (edit_one wItem w5input 9).tags = normalize_tags v) ∧
    (w5input.clear_username = true → (edit_one wItem w5input 9).username = none) ∧
    (w5input.clear_username = false → w5input.username = none →
      (edit_one wItem w5input 9).username = wItem.username) ∧
    (∀ v, w5input.clear_username = false → w5input.username = some v →
      (edit_one wItem w5input 9).username = some v) ∧
    (w5input.clear_urls = true → (edit_one wItem w5input 9).urls = []) ∧
    (w5input.clear_urls = false → w5input.urls = none →
      (edit_one wItem w5input 9).urls = wItem.urls) ∧
    (∀ v, w5input.clear_urls = false → w5input.urls = some v →
      (edit_one wItem w5input 9).urls = normalize_urls v) ∧
    (w5input.clear_notes = true → (edit_one wItem w5input 9).notes = none) ∧
    (w5input.clear_notes = false → w5input.notes = none →
      (edit_one wItem w5input 9).notes = wItem.notes) ∧
    (∀ v, w5input.clear_notes = false → w5input.notes = some v →
      (edit_one wItem w5input 9).notes = some v) ∧
    (w5input.secret = none → (edit_one wItem w5input 9).secret = wItem.secret) ∧
    (∀ v, w5input.secret = some v → (edit_one wItem w5input 9).secret = v) ∧
    (w5input.item_type = none →
      (edit_one wItem w5input 9).item_type = wItem.item_type) ∧
    (∀ v, w5input.item_type = some v → (edit_one wItem w5input 9).item_type = v) ∧
    (w5input.name = none → (edit_one wItem w5input 9).name = wItem.name) ∧
    (∀ v, w5input.name = some v → (edit_one wItem w5input 9).name = v) ∧
    (edit_one wItem w5input 9).created_at = wItem.created_at ∧
    (edit_one wItem w5input 9).updated_at = 9 ∧
    (w5input.item_type = none → w5input.name = none →
     w5input.path = none → w5input.clear_path = false →
     w5input.tags = none → w5input.clear_tags = false →
     w5input.username = none → w5input.clear_username = false →
     w5input.secret = none →
     w5input.urls = none → w5input.clear_urls = false →
     w5input.notes = none → w5input.clear_notes = false →
     edit_one wItem w5input 9 = { wItem with updated_at := 9 }) :=
  c5_edit_tri_state ⟨1, [wItem]⟩ w5input 9 wItem (by decide)

/-! ## Claim C2 -/

/-- C2: whenever the AEAD primitive fails during DEK unwrap or during
payload decrypt inside `load_payload_v1`, the result is exactly
`AuthFailed`; no other error constructor is produced for an AEAD
authentication failure and the two failure sites yield the same value. -/
theorem c2_aead_failure_is_auth_failed (O : CryptoOracle) (bytes pw : List Nat)
    (pv : ParsedVaultV1) (kdfo kek : List Nat)
    (hparse : parse_vault_v1 bytes = .ok pv)
    (hkdf : O.derive_kdf_out pw pv.header.kdf_salt pv.header.kdf_params = .ok kdfo)
    (hkek : O.derive_kek kdfo = .ok kek) :
    (O.unwrap_dek kek pv.header.wrap_nonce (aad_for_v1 pv.header) pv.header.wrapped_dek
        = .error CryptoError.Aead →
      load_payload_v1 O bytes pw = .error VaultError.AuthFailed) ∧
    (∀ dek,
      O.unwrap_dek kek pv.header.wrap_nonce (aad_for_v1 pv.header) pv.header.wrapped_dek
        = .ok dek →
      O.decrypt_payload dek pv.header.payload_nonce (aad_for_v1 pv.header)
          pv.payload_ciphertext = .error CryptoError.Aead →
      load_payload_v1 O bytes pw = .error VaultError.AuthFailed) := by
  constructor
  · intro hu
    unfold load_payload_v1
    rw [hparse]
    simp only []
    rw [hkdf]
    simp only []
    rw [hkek]
    simp only []
    rw [hu]
  · intro dek hu hdec
    unfold load_payload_v1
    rw [hparse]
    simp only []
    rw [hkdf]
    simp only []
    rw [hkek]
    simp only []
    rw [hu]
    simp only []
    rw [hdec]

unseal parseTlvs in
set_option maxRecDepth 10000 in
/-- Witness for C2: a concrete vault whose unwrap step fails authentication
is loaded and reports `AuthFailed`. -/
theorem c2_aead_failure_is_auth_failed_witness :
    (wOracleUnwrapFail.unwrap_dek [] wHdr.wrap_nonce (aad_for_v1 wHdr) wHdr.wrapped_dek
        = .error CryptoError.Aead →
      load_payload_v1 wOracleUnwrapFail wBytes [] = .error VaultError.AuthFailed) ∧
    (∀ dek,
      wOracleUnwrapFail.unwrap_dek [] wHdr.wrap_nonce (aad_for_v1 wHdr) wHdr.wrapped_dek
        = .ok dek →
      wOracleUnwrapFail.decrypt_payload dek wHdr.payload_nonce (aad_for_v1 wHdr) [7, 7]
        = .error CryptoError.Aead →
      load_payload_v1 wOracleUnwrapFail wBytes [] = .error VaultError.AuthFailed) :=
  c2_aead_failure_is_auth_failed wOracleUnwrapFail wBytes [] ⟨wHdr, [7, 7]⟩ [] []
    (by decide) rfl rfl

/-! ## Claim C6 -/

/-- Inversion of `load_payload_v1` success: the parsed vault is the parse of
the input bytes. -/
theorem load_payload_v1_parse {O : CryptoOracle} {bytes pw : List Nat}
    {payload : VaultPayloadV1} {parsed : ParsedVaultV1}
    (h : load_payload_v1 O bytes pw = .ok (payload, parsed)) :
    parse_vault_v1 bytes = .ok parsed := by
  unfold load_payload_v1 at h
  cases hp : parse_vault_v1 bytes with
  | error e => rw [hp] at h; exact Except.noConfusion h
  | ok pv =>
    rw [hp] at h
    simp only [] at h
    cases hkdf : O.derive_kdf_out pw pv.header.kdf_salt pv.header.kdf_params with
    | error e => rw [hkdf] at h; exact Except.noConfusion h
    | ok kdfo =>
      rw [hkdf] at h
      simp only [] at h
      cases hkek : O.derive_kek kdfo with
      | error e => rw [hkek] at h; exact Except.noConfusion h
      | ok kek =>
        rw [hkek] at h
        simp only [] at h
        cases hu : O.unwrap_dek kek pv.header.wrap_nonce (aad_for_v1 pv.header)
            pv.header.wrapped_dek with
        | error e =>
          rw [hu] at h
          cases e <;> exact Except.noConfusion h
        | ok dek =>
          rw [hu] at h
          simp only [] at h
          cases hd : O.decrypt_payload dek pv.header.payload_nonce
              (aad_for_v1 pv.header) pv.payload_ciphertext with
          | error e =>
            rw [hd] at h
            cases e <;> exact Except.noConfusion h
          | ok pt =>
            rw [hd] at h
            simp only [] at h
            cases hj : O.decode_payload pt with
            | error e => rw [hj] at h; exact Except.noConfusion h
            | ok pl =>
              rw [hj] at h
              simp only [] at h
              by_cases hsv : pl.schema_version ≠ 1
              · rw [if_pos hsv] at h; exact Except.noConfusion h
              · rw [if_neg hsv] at h
                injection h with h
                have h2 : pv = parsed := by
                  have hsnd := congrArg Prod.snd h
                  simpa using hsnd
                rw [h2]

/-- Inversion of a successful `vault_add_item_v1`: a successful load
followed by a successful seal of the mutated payload, re-using the loaded
KDF parameters and salt. -/
theorem vault_add_item_v1_ok {O : CryptoOracle} {rng : Rng} {bytes pw : List Nat}
    {input : AddItemInput} {now newId rid : Nat} {nb : List Nat}
    (h : vault_add_item_v1 O rng bytes pw input now newId = .ok (rid, nb)) :
    ∃ payload parsed, load_payload_v1 O bytes pw = .ok (payload, parsed) ∧
      seal_vault_v1 O rng parsed.header.kdf_params parsed.header.kdf_salt pw
        (add_item_payload payload input now newId) = .ok nb := by
  unfold vault_add_item_v1 at h
  cases hl : load_payload_v1 O bytes pw with
  | error e => rw [hl] at h; exact Except.noConfusion h
  | ok pp =>
    obtain ⟨payload, parsed⟩ := pp
    rw [hl] at h
    simp only [] at h
    cases hs : seal_vault_v1 O rng parsed.header.kdf_params parsed.header.kdf_salt pw
        (add_item_payload payload input now newId) with
    | error e => rw [hs] at h; exact Except.noConfusion h
    | ok nb2 =>
      rw [hs] at h
      injection h with h
      have h2 : nb2 = nb := by
        have hsnd := congrArg Prod.snd h
        simpa using hsnd
      exact ⟨payload, parsed, rfl, by rw [h2] at hs; exact hs⟩

/-- Inversion of a successful `vault_edit_item_v1`. -/
theorem vault_edit_item_v1_ok {O : CryptoOracle} {rng : Rng} {bytes pw : List Nat}
    {input : EditItemInput} {now : Nat} {nb : List Nat}
    (h : vault_edit_item_v1 O rng bytes pw input now = .ok nb) :
    ∃ payload parsed payload2, load_payload_v1 O bytes pw = .ok (payload, parsed) ∧
      edit_item_payload payload input now = .ok payload2 ∧
      seal_vault_v1 O rng parsed.header.kdf_params parsed.header.kdf_salt pw payload2
        = .ok nb := by
  unfold vault_edit_item_v1 at h
  cases hl : load_payload_v1 O bytes pw with
  | error e => rw [hl] at h; exact Except.noConfusion h
  | ok pp =>
    obtain ⟨payload, parsed⟩ := pp
    rw [hl] at h
    simp only [] at h
    cases he : edit_item_payload payload input now with
    | error e => rw [he] at h; exact Except.noConfusion h
    | ok payload2 =>
      rw [he] at h
      exact ⟨payload, parsed, payload2, rfl, he, h⟩

/-- Inversion of a successful `vault_remove_item_v1`. -/
theorem vault_remove_item_v1_ok {O : CryptoOracle} {rng : Rng} {bytes pw : List Nat}
    {id : Nat} {nb : List Nat}
    (h : vault_remove_item_v1 O rng bytes pw id = .ok nb) :
    ∃ payload parsed payload2, load_payload_v1 O bytes pw = .ok (payload, parsed) ∧
      remove_item_payload payload id = .ok payload2 ∧
      seal_vault_v1 O rng parsed.header.kdf_params parsed.header.kdf_salt pw payload2
        = .ok nb := by
  unfold vault_remove_item_v1 at h
  cases hl : load_payload_v1 O bytes pw with
  | error e => rw [hl] at h; exact Except.noConfusion h
  | ok pp =>
    obtain ⟨payload, parsed⟩ := pp
    rw [hl] at h
    simp only [] at h
    cases he : remove_item_payload payload id with
    | error e => rw [he] at h; exact Except.noConfusion h
    | ok payload2 =>
      rw [he] at h
      exact ⟨payload, parsed, payload2, rfl, he, h⟩

/-- Successful seal output parses back: the supplied KDF parameters and
salt are carried into the new header unchanged, the two nonces are the
fresh draws of the random stream, and the wrapped DEK is an AEAD wrap of
the third fresh draw. -/
theorem seal_vault_v1_parse {O : CryptoOracle} {rng : Rng} {params : KdfParams}
    {salt pw : List Nat} {payload : VaultPayloadV1} {nb : List Nat}
    (hw : WrapLenOk O)
    (hsalt : salt.length = 16)
    (hm : params.memory_kib < 2 ^ 32) (hi : params.iterations < 2 ^ 32)
    (hpar : params.parallelism < 2 ^ 32)
    (hseal : seal_vault_v1 O rng params salt pw payload = .ok nb) :
    ∃ w ct, parse_vault_v1 nb
        = .ok ⟨⟨params, salt, fresh_wrap_nonce rng, w, fresh_payload_nonce rng⟩, ct⟩ ∧
      ∃ kek, O.wrap_dek kek (fresh_wrap_nonce rng)
          (encode_header_v1 ⟨params, salt, fresh_wrap_nonce rng,
            List.replicate (DEK_LEN + 16) 0, fresh_payload_nonce rng⟩)
          (fresh_dek rng) = .ok w := by
  unfold seal_vault_v1 at hseal
  simp only [random_bytes] at hseal
  cases hkdf : O.derive_kdf_out pw salt params with
  | error e => rw [hkdf] at hseal; exact Except.noConfusion hseal
  | ok kdfo =>
    rw [hkdf] at hseal
    simp only [] at hseal
    cases hkek : O.derive_kek kdfo with
    | error e => rw [hkek] at hseal; exact Except.noConfusion hseal
    | ok kek =>
      rw [hkek] at hseal
      simp only [] at hseal
      rw [show XCHACHA_NONCE_LEN = 24 from rfl, show DEK_LEN = 32 from rfl] at hseal
      set wn : List Nat := (List.range 24).map (fun i => rng.stream (rng.pos + i))
        with hwn
      set pn : List Nat := (List.range 24).map (fun i => rng.stream (rng.pos + 24 + i))
        with hpn
      set dk : List Nat := (List.range 32).map
        (fun i => rng.stream (rng.pos + 24 + 24 + i)) with hdk
      cases hwd : O.wrap_dek kek wn
          (encode_header_v1 ⟨params, salt, wn, List.replicate (32 + 16) 0, pn⟩) dk with
      | error e => rw [hwd] at hseal; exact Except.noConfusion hseal
      | ok w =>
        rw [hwd] at hseal
        simp only [] at hseal
        cases hej : O.encode_payload payload with
        | error e => rw [hej] at hseal; exact Except.noConfusion hseal
        | ok pj =>
          rw [hej] at hseal
          simp only [] at hseal
          cases hec : O.encrypt_payload dk pn
              (encode_header_v1 ⟨params, salt, wn, List.replicate (32 + 16) 0, pn⟩)
              pj with
          | error e => rw [hec] at hseal; exact Except.noConfusion hseal
          | ok ct =>
            rw [hec] at hseal
            injection hseal with hseal
            have hfw : fresh_wrap_nonce rng = wn := by
              simp [fresh_wrap_nonce, random_bytes, hwn, XCHACHA_NONCE_LEN]
            have hfp : fresh_payload_nonce rng = pn := by
              simp [fresh_payload_nonce, random_bytes, hpn, XCHACHA_NONCE_LEN,
                Nat.add_assoc]
            have hfd : fresh_dek rng = dk := by
              simp [fresh_dek, random_bytes, hdk, XCHACHA_NONCE_LEN, DEK_LEN,
                Nat.add_assoc]
            refine ⟨w, ct, ?_, kek, ?_⟩
            · rw [← hseal]
              rw [hfw, hfp]
              exact parse_encode_header ct hsalt (by rw [hwn]; simp)
                (by rw [hpn]; simp) hm hi hpar
                (by rw [hw kek wn _ dk w hwd]; decide)
            · rw [hfw, hfp, hfd]
              exact hwd

/-- C6: every successful mutating operation writes bytes whose header keeps
the previous header's `kdf_params` and `kdf_salt`, while the wrap nonce and
payload nonce are the fresh random draws and the wrapped DEK is an AEAD
wrap of the freshly drawn DEK — not copies from the old file. -/
theorem c6_mutations_preserve_kdf_and_resample (O : CryptoOracle) (rng : Rng)
    (bytes pw : List Nat) (old : ParsedVaultV1)
    (hw : WrapLenOk O)
    (hold : parse_vault_v1 bytes = .ok old)
    (hsalt : old.header.kdf_salt.length = 16)
    (hm : old.header.kdf_params.memory_kib < 2 ^ 32)
    (hi : old.header.kdf_params.iterations < 2 ^ 32)
    (hpar : old.header.kdf_params.parallelism < 2 ^ 32) :
    (∀ input now newId rid nb,
      vault_add_item_v1 O rng bytes pw input now newId = .ok (rid, nb) →
      ∃ w ct, parse_vault_v1 nb
          = .ok ⟨⟨old.header.kdf_params, old.header.kdf_salt, fresh_wrap_nonce rng,
                  w, fresh_payload_nonce rng⟩, ct⟩ ∧
        ∃ kek, O.wrap_dek kek (fresh_wrap_nonce rng)
            (encode_header_v1 ⟨old.header.kdf_params, old.header.kdf_salt,
              fresh_wrap_nonce rng, List.replicate (DEK_LEN + 16) 0,
              fresh_payload_nonce rng⟩) (fresh_dek rng) = .ok w) ∧
    (∀ input now nb,
      vault_edit_item_v1 O rng bytes pw input now = .ok nb →
      ∃ w ct, parse_vault_v1 nb
          = .ok ⟨⟨old.header.kdf_params, old.header.kdf_salt, fresh_wrap_nonce rng,
                  w, fresh_payload_nonce rng⟩, ct⟩ ∧
        ∃ kek, O.wrap_dek kek (fresh_wrap_nonce rng)
            (encode_header_v1 ⟨old.header.kdf_params, old.header.kdf_salt,
              fresh_wrap_nonce rng, List.replicate (DEK_LEN + 16) 0,
              fresh_payload_nonce rng⟩) (fresh_dek rng) = .ok w) ∧
    (∀ id nb,
      vault_remove_item_v1 O rng bytes pw id = .ok nb →
      ∃ w ct, parse_vault_v1 nb
          = .ok ⟨⟨old.header.kdf_params, old.header.kdf_salt, fresh_wrap_nonce rng,
                  w, fresh_payload_nonce rng⟩, ct⟩ ∧
        ∃ kek, O.wrap_dek kek (fresh_wrap_nonce rng)
            (encode_header_v1 ⟨old.header.kdf_params, old.header.kdf_salt,
              fresh_wrap_nonce rng, List.replicate (DEK_LEN + 16) 0,
              fresh_payload_nonce rng⟩) (fresh_dek rng) = .ok w) := by
  refine ⟨?_, ?_, ?_⟩
  · intro input now newId rid nb hadd
    obtain ⟨payload, parsed, hl, hs⟩ := vault_add_item_v1_ok hadd
    have hpe : parsed = old := by
      have := load_payload_v1_parse hl
      rw [hold] at this
      injection this with this
      exact this.symm
    subst hpe
    exact seal_vault_v1_parse hw hsalt hm hi hpar hs
  · intro input now nb hedit
    obtain ⟨payload, parsed, payload2, hl, _, hs⟩ := vault_edit_item_v1_ok hedit
    have hpe : parsed = old := by
      have := load_payload_v1_parse hl
      rw [hold] at this
      injection this with this
      exact this.symm
    subst hpe
    exact seal_vault_v1_parse hw hsalt hm hi hpar hs
  · intro id nb hrm
    obtain ⟨payload, parsed, payload2, hl, _, hs⟩ := vault_remove_item_v1_ok hrm
    have hpe : parsed = old := by
      have := load_payload_v1_parse hl
      rw [hold] at this
      injection this with this
      exact this.symm
    subst hpe
    exact seal_vault_v1_parse hw hsalt hm hi hpar hs

unseal parseTlvs in
set_option maxRecDepth 10000 in
/-- Witness for C6 at the concrete test vault and the constant oracle. -/
theorem c6_mutations_preserve_kdf_and_resample_witness :
    (∀ input now newId rid nb,
      vault_add_item_v1 wOracle wRng wBytes [] input now newId = .ok (rid, nb) →
      ∃ w ct, parse_vault_v1 nb
          = .ok ⟨⟨wHdr.kdf_params, wHdr.kdf_salt, fresh_wrap_nonce wRng,
                  w, fresh_payload_nonce wRng⟩, ct⟩ ∧
        ∃ kek, wOracle.wrap_dek kek (fresh_wrap_nonce wRng)
            (encode_header_v1 ⟨wHdr.kdf_params, wHdr.kdf_salt,
              fresh_wrap_nonce wRng, List.replicate (DEK_LEN + 16) 0,
              fresh_payload_nonce wRng⟩) (fresh_dek wRng) = .ok w) ∧
    (∀ input now nb,
      vault_edit_item_v1 wOracle wRng wBytes [] input now = .ok nb →
      ∃ w ct, parse_vault_v1 nb
          = .ok ⟨⟨wHdr.kdf_params, wHdr.kdf_salt, fresh_wrap_nonce wRng,
                  w, fresh_payload_nonce wRng⟩, ct⟩ ∧
        ∃ kek, wOracle.wrap_dek kek (fresh_wrap_nonce wRng)
            (encode_header_v1 ⟨wHdr.kdf_params, wHdr.kdf_salt,
              fresh_wrap_nonce wRng, List.replicate (DEK_LEN + 16) 0,
              fresh_payload_nonce wRng⟩) (fresh_dek wRng) = .ok w) ∧
    (∀ id nb,
      vault_remove_item_v1 wOracle wRng wBytes [] id = .ok nb →
      ∃ w ct, parse_vault_v1 nb
          = .ok ⟨⟨wHdr.kdf_params, wHdr.kdf_salt, fresh_wrap_nonce wRng,
                  w, fresh_payload_nonce wRng⟩, ct⟩ ∧
        ∃ kek, wOracle.wrap_dek kek (fresh_wrap_nonce wRng)
            (encode_header_v1 ⟨wHdr.kdf_params, wHdr.kdf_salt,
              fresh_wrap_nonce wRng, List.replicate (DEK_LEN + 16) 0,
              fresh_payload_nonce wRng⟩) (fresh_dek wRng) = .ok w) :=
  c6_mutations_preserve_kdf_and_resample wOracle wRng wBytes [] ⟨wHdr, [7, 7]⟩
    (fun k n a d ct hct => by
      injection hct with hct
      rw [← hct]
      simp)
    (by decide) (by decide) (by decide) (by decide) (by decide)

/-! ## Claim C8 -/

theorem bash_single_quote_eq (v : Str) :
    bash_single_quote v = '\'' :: (v.flatMap bash_escape_char ++ ['\'']) := by
  unfold bash_single_quote
  by_cases hv : v.isEmpty
  · rw [if_pos hv]
    cases v with
    | nil => rfl
    | cons a v2 => simp [List.isEmpty] at hv
  · rw [if_neg hv]

/-- C8: when every key passes the validator, `bash_export_lines` produces
exactly one `export K='V'` line per entry in map order, with every quote in
the value replaced by the four-character escape and the empty value giving
two quotes; when some key fails the validator, the result is an
`InvalidEnvVarName` error carrying an invalid key. -/
theorem c8_bash_export_lines_spec (vars : List (Str × Str)) :
    ((∀ kv ∈ vars, is_valid_env_var_name kv.1 = true) →
      bash_export_lines vars = .ok (specExportLines vars)) ∧
    ((∃ kv ∈ vars, is_valid_env_var_name kv.1 = false) →
      ∃ k, bash_export_lines vars = .error (.InvalidEnvVarName k) ∧
        is_valid_env_var_name k = false) := by
  induction vars with
  | nil =>
    constructor
    · intro _; rfl
    · intro hex
      obtain ⟨kv, hm, _⟩ := hex
      simp at hm
  | cons kv rest ih =>
    obtain ⟨k, v⟩ := kv
    constructor
    · intro hall
      have hk : is_valid_env_var_name k = true := hall (k, v) (by simp)
      have hrest := ih.1 (fun kv2 hm => hall kv2 (List.mem_cons_of_mem _ hm))
      unfold bash_export_lines
      rw [hk]
      simp only [Bool.true_eq_false, if_false]
      rw [hrest]
      simp only [specExportLines, List.flatMap_cons, specExportLine,
        bash_single_quote_eq]
      simp [List.append_assoc]
    · intro hex
      by_cases hk : is_valid_env_var_name k = true
      · have hex2 : ∃ kv ∈ rest, is_valid_env_var_name kv.1 = false := by
          obtain ⟨kv2, hm, hv2⟩ := hex
          rcases List.mem_cons.mp hm with hkv | hm2
          · rw [hkv] at hv2
            rw [hv2] at hk
            exact absurd hk (by simp)
          · exact ⟨kv2, hm2, hv2⟩
        obtain ⟨k2, herr, hk2⟩ := ih.2 hex2
        refine ⟨k2, ?_, hk2⟩
        unfold bash_export_lines
        rw [hk]
        simp only [Bool.true_eq_false, if_false]
        rw [herr]
      · refine ⟨k, ?_, by simpa using hk⟩
        unfold bash_export_lines
        rw [Bool.not_eq_true] at hk
        rw [hk]
        simp

/-- Witness for C8: two valid entries including a quote in the value, and a
map with an invalid lowercase key. -/
theorem c8_bash_export_lines_spec_witness :
    ((∀ kv ∈ ([(("A").toList, ("x'y").toList), (("B").toList, ("").toList)] :
        List (Str × Str)), is_valid_env_var_name kv.1 = true) →
      bash_export_lines [(("A").toList, ("x'y").toList), (("B").toList, ("").toList)]
        = .ok (specExportLines
            [(("A").toList, ("x'y").toList), (("B").toList, ("").toList)])) ∧
    ((∃ kv ∈ ([(("A").toList, ("x'y").toList), (("B").toList, ("").toList)] :
        List (Str × Str)), is_valid_env_var_name kv.1 = false) →
      ∃ k, bash_export_lines
          [(("A").toList, ("x'y").toList), (("B").toList, ("").toList)]
          = .error (.InvalidEnvVarName k) ∧ is_valid_env_var_name k = false) :=
  c8_bash_export_lines_spec [(("A").toList, ("x'y").toList), (("B").toList, ("").toList)]

/-! ## Claim C9 -/

theorem render_template_nil (vars : List (Str × Str)) :
    render_template [] vars = .ok [] := by
  rw [render_template.eq_def]

theorem render_template_open_none {rest : Str} (vars : List (Str × Str))
    (hsc : splitAtCloseBrace rest = none) :
    render_template ('$' :: '{' :: rest) vars = .error .UnterminatedPlaceholder := by
  rw [render_template.eq_def]
  split
  · rename_i heq
    exact List.noConfusion heq
  · rename_i r heq
    have hr : rest = r := by
      injection heq with h1 h2
      injection h2
    subst hr
    split
    · rfl
    · rename_i nm2 after2 hs
      rw [hsc] at hs
      exact Option.noConfusion hs
  · rename_i hx heq
    injection heq with h1 h2
    exact absurd h2.symm (hx rest h1.symm)

theorem render_template_open_some {rest nm after : Str} (vars : List (Str × Str))
    (hsc : splitAtCloseBrace rest = some (nm, after)) :
    render_template ('$' :: '{' :: rest) vars
      = (if is_valid_env_var_name nm = false then .error (.InvalidEnvVarName nm)
         else match lookupVar vars nm with
           | none => .error (.UnknownVariable nm)
           | some v =>
             match render_template after vars with
             | .error e => .error e
             | .ok out => .ok (v ++ out)) := by
  rw [render_template.eq_def]
  split
  · rename_i heq
    exact List.noConfusion heq
  · rename_i r heq
    have hr : rest = r := by
      injection heq with h1 h2
      injection h2
    subst hr
    split
    · rename_i hs
      rw [hsc] at hs
      exact Option.noConfusion hs
    · rename_i nm2 after2 hs
      rw [hsc] at hs
      injection hs with hs
      have h1 : nm = nm2 := congrArg Prod.fst hs
      have h2 : after = after2 := congrArg Prod.snd hs
      subst h1
      subst h2
      rfl
  · rename_i hx heq
    injection heq with h1 h2
    exact absurd h2.symm (hx rest h1.symm)

theorem render_template_literal {c : Char} {rest : Str} (vars : List (Str × Str))
    (hnp : ∀ r : Str, c :: rest ≠ '$' :: '{' :: r) :
    render_template (c :: rest) vars
      = (match render_template rest vars with
         | .error e => .error e
         | .ok out => .ok (c :: out)) := by
  rw [render_template.eq_def]
  split
  · rename_i heq
    exact List.noConfusion heq
  · rename_i r heq
    exact absurd heq (hnp r)
  · rename_i hx heq
    injection heq with h1 h2
    subst h1
    subst h2
    rfl

theorem renderSpec_noOpen (t : Str) (vars : List (Str × Str))
    (h : splitAtPlaceholder t = none) :
    renderSpec t vars = .ok t := by
  rw [renderSpec.eq_def]
  split
  · rfl
  · rename_i pre rest hs
    rw [h] at hs
    exact Option.noConfusion hs

theorem renderSpec_open_none {t pre rest : Str} (vars : List (Str × Str))
    (h1 : splitAtPlaceholder t = some (pre, rest))
    (h2 : splitAtCloseBrace rest = none) :
    renderSpec t vars = .error .UnterminatedPlaceholder := by
  rw [renderSpec.eq_def]
  split
  · rename_i hs
    rw [h1] at hs
    exact Option.noConfusion hs
  · rename_i pre2 rest2 hs
    rw [h1] at hs
    injection hs with hs
    have hp : pre = pre2 := congrArg Prod.fst hs
    have hr : rest = rest2 := congrArg Prod.snd hs
    subst hp
    subst hr
    split
    · rfl
    · rename_i nm2 after2 hs2
      rw [h2] at hs2
      exact Option.noConfusion hs2

theorem renderSpec_open_some {t pre rest nm after : Str} (vars : List (Str × Str))
    (h1 : splitAtPlaceholder t = some (pre, rest))
    (h2 : splitAtCloseBrace rest = some (nm, after)) :
    renderSpec t vars
      = (if is_valid_env_var_name nm = false then .error (.InvalidEnvVarName nm)
         else match lookupVar vars nm with
           | none => .error (.UnknownVariable nm)
           | some v =>
             match renderSpec after vars with
             | .error e => .error e
             | .ok out => .ok (pre ++ v ++ out)) := by
  rw [renderSpec.eq_def]
  split
  · rename_i hs
    rw [h1] at hs
    exact Option.noConfusion hs
  · rename_i pre2 rest2 hs
    rw [h1] at hs
    injection hs with hs
    have hp : pre = pre2 := congrArg Prod.fst hs
    have hr : rest = rest2 := congrArg Prod.snd hs
    subst hp
    subst hr
    split
    · rename_i hs2
      rw [h2] at hs2
      exact Option.noConfusion hs2
    · rename_i nm2 after2 hs2
      rw [h2] at hs2
      injection hs2 with hs2
      have hn : nm = nm2 := congrArg Prod.fst hs2
      have ha : after = after2 := congrArg Prod.snd hs2
      subst hn
      subst ha
      rfl

theorem render_template_eq_renderSpec_aux :
    ∀ (n : Nat) (t : Str), t.length = n → ∀ vars : List (Str × Str),
      render_template t vars = renderSpec t vars := by
  intro n
  induction n using Nat.strong_induction_on with
  | _ n ih =>
    intro t hlen vars
    cases t with
    | nil =>
      rw [render_template_nil, renderSpec_noOpen [] vars rfl]
    | cons c rest =>
      by_cases hplace : ∃ r : Str, c :: rest = '$' :: '{' :: r
      · obtain ⟨r, hr⟩ := hplace
        injection hr with hc hr2
        subst hc
        subst hr2
        have hsp : splitAtPlaceholder ('$' :: '{' :: r) = some ([], r) := by
          rw [splitAtPlaceholder]
          simp
        cases hsc : splitAtCloseBrace r with
        | none =>
          rw [render_template_open_none vars hsc, renderSpec_open_none vars hsp hsc]
        | some q =>
          obtain ⟨nm, after⟩ := q
          rw [render_template_open_some vars hsc, renderSpec_open_some vars hsp hsc]
          by_cases hv : is_valid_env_var_name nm = false
          · rw [if_pos hv, if_pos hv]
          · rw [if_neg hv, if_neg hv]
            cases hlk : lookupVar vars nm with
            | none => rfl
            | some v =>
              have hihr : render_template after vars = renderSpec after vars := by
                refine ih after.length ?_ after rfl vars
                have := splitAtCloseBrace_length hsc
                simp only [List.length_cons] at hlen
                omega
              rw [hihr]
              cases renderSpec after vars with
              | error e => rfl
              | ok out => simp
      · have hnp : ∀ r : Str, c :: rest ≠ '$' :: '{' :: r :=
          fun r h => hplace ⟨r, h⟩
        rw [render_template_literal vars hnp]
        have hihr : render_template rest vars = renderSpec rest vars := by
          refine ih rest.length ?_ rest rfl vars
          simp only [List.length_cons] at hlen
          omega
        rw [hihr]
        cases rest with
        | nil =>
          rw [renderSpec_noOpen [c] vars rfl, renderSpec_noOpen [] vars rfl]
        | cons c2 rest2 =>
          have hcond : ¬ (c = '$' ∧ c2 = '{') := by
            intro hcc
            exact hnp rest2 (by rw [hcc.1, hcc.2])
          have hsplit : splitAtPlaceholder (c :: c2 :: rest2)
              = (splitAtPlaceholder (c2 :: rest2)).map (fun p => (c :: p.1, p.2)) := by
            rw [splitAtPlaceholder, if_neg hcond]
          cases hsp : splitAtPlaceholder (c2 :: rest2) with
          | none =>
            rw [renderSpec_noOpen (c2 :: rest2) vars hsp,
              renderSpec_noOpen (c :: c2 :: rest2) vars (by rw [hsplit, hsp]; rfl)]
          | some p =>
            obtain ⟨pre, r2⟩ := p
            have hspt : splitAtPlaceholder (c :: c2 :: rest2) = some (c :: pre, r2) := by
              rw [hsplit, hsp]
              rfl
            cases hsc : splitAtCloseBrace r2 with
            | none =>
              rw [renderSpec_open_none vars hsp hsc, renderSpec_open_none vars hspt hsc]
            | some q =>
              obtain ⟨nm, after⟩ := q
              rw [renderSpec_open_some vars hsp hsc, renderSpec_open_some vars hspt hsc]
              by_cases hv : is_valid_env_var_name nm = false
              · rw [if_pos hv, if_pos hv]
              · rw [if_neg hv, if_neg hv]
                cases hlk : lookupVar vars nm with
                | none => rfl
                | some v =>
                  cases hra : renderSpec after vars with
                  | error e => rfl
                  | ok out => simp

/-- C9: `render_template` coincides with the specification renderer on every
template and variable map — it substitutes every placeholder whose name is
valid and present, copies a dollar not followed by a brace literally, and
reports invalid names, unknown names and unterminated placeholders as the
corresponding errors. -/
theorem c9_render_template_spec (template : Str) (vars : List (Str × Str)) :
    render_template template vars = renderSpec template vars :=
  render_template_eq_renderSpec_aux template.length template rfl vars

/-! ## Claim C10 -/

/-- C10: when `vault_edit_item_v1` or `vault_remove_item_v1` fails with
`ItemNotFound`, the single write of the operation is never reached and the
vault file bytes are exactly those that were read. -/
theorem c10_itemnotfound_leaves_file_unchanged (O : CryptoOracle) (rng : Rng)
    (file pw : List Nat) (input : EditItemInput) (now id j : Nat) :
    ((run_file_mutation file
        (fun b => vault_edit_item_v1 O rng b pw input now)).1
          = .error (.ItemNotFound j) →
      (run_file_mutation file
        (fun b => vault_edit_item_v1 O rng b pw input now)).2 = file) ∧
    ((run_file_mutation file
        (fun b => vault_remove_item_v1 O rng b pw id)).1
          = .error (.ItemNotFound j) →
      (run_file_mutation file
        (fun b => vault_remove_item_v1 O rng b pw id)).2 = file) := by
  constructor
  · intro h
    unfold run_file_mutation at h ⊢
    simp only [] at h ⊢
    revert h
    cases vault_edit_item_v1 O rng file pw input now with
    | error e => intro _; rfl
    | ok nb => intro h; exact Except.noConfusion h
  · intro h
    unfold run_file_mutation at h ⊢
    simp only [] at h ⊢
    revert h
    cases vault_remove_item_v1 O rng file pw id with
    | error e => intro _; rfl
    | ok nb => intro h; exact Except.noConfusion h

unseal parseTlvs in
set_option maxRecDepth 10000 in
/-- Witness for C10: on the concrete test vault, editing or removing an
absent id really does report `ItemNotFound`, and the theorem then yields
that the file bytes stay identical. -/
theorem c10_itemnotfound_leaves_file_unchanged_witness :
    (run_file_mutation wBytes
        (fun b => vault_edit_item_v1 wOracle wRng b [] w10input 9)).1
          = .error (.ItemNotFound 2) ∧
    (run_file_mutation wBytes
        (fun b => vault_edit_item_v1 wOracle wRng b [] w10input 9)).2 = wBytes ∧
    (run_file_mutation wBytes
        (fun b => vault_remove_item_v1 wOracle wRng b [] 2)).1
          = .error (.ItemNotFound 2) ∧
    (run_file_mutation wBytes
        (fun b => vault_remove_item_v1 wOracle wRng b [] 2)).2 = wBytes :=
  ⟨by decide,
   (c10_itemnotfound_leaves_file_unchanged wOracle wRng wBytes [] w10input 9 2 2).1
     (by decide),
   by decide,
   (c10_itemnotfound_leaves_file_unchanged wOracle wRng wBytes [] w10input 9 2 2).2
     (by decide)⟩

unseal parseTlvs in
set_option maxRecDepth 10000 in
/-- Witness for C4 (amended) at the duplicate-salt record list. -/
theorem c4_duplicate_tlv_last_wins_witness :
    (tlvValues TLV_KDF_SALT c4records).getLast?
        = some (List.replicate 16 0xBB) ∧
      ((tlvValues TLV_ARGON2_PARAMS c4records).map decodeArgon2).getLast?
        = some ⟨1, 1, 1⟩ ∧
      ((tlvValues TLV_WRAPPED_DEK c4records).map
          (fun v => v.drop (XCHACHA_NONCE_LEN + 4))).getLast? = some [] ∧
      (tlvValues TLV_PAYLOAD_NONCE c4records).getLast?
        = some (List.replicate 24 2) :=
  c4_duplicate_tlv_last_wins c4records []
    ⟨⟨⟨1, 1, 1⟩, List.replicate 16 0xBB, List.replicate 24 1, [],
      List.replicate 24 2⟩, []⟩
    (by decide) (by decide) (by decide)

/-! ## Claim C7 -/

theorem char_toNat_ofNat_small (n : Nat) (h : n < 128) :
    (Char.ofNat n).toNat = n := by
  have hv : n.isValidChar := Or.inl (by omega)
  simp [Char.ofNat, hv, Char.ofNatAux, Char.toNat, UInt32.toNat,
    BitVec.toNat_ofNatLt]

theorem char_eq_iff_toNat (a b : Char) : a = b ↔ a.toNat = b.toNat := by
  constructor
  · intro h; rw [h]
  · intro h
    cases a; cases b
    simp only [Char.toNat, UInt32.toNat] at h
    congr 1
    exact UInt32.eq_of_toBitVec_eq (BitVec.eq_of_toNat_eq h)

theorem isWhitespace_iff_toNat (c : Char) :
    c.isWhitespace = true ↔
      (c.toNat = 32 ∨ c.toNat = 9 ∨ c.toNat = 13 ∨ c.toNat = 10) := by
  have h32 : (' ' : Char).toNat = 32 := rfl
  have h9 : ('\t' : Char).toNat = 9 := rfl
  have h13 : ('\x0d' : Char).toNat = 13 := rfl
  have h10 : ('\n' : Char).toNat = 10 := rfl
  simp only [Char.isWhitespace, Bool.or_eq_true, decide_eq_true_eq,
    char_eq_iff_toNat, h32, h9, h13, h10]
  tauto

theorem toLower_toLower (c : Char) : c.toLower.toLower = c.toLower := by
  unfold Char.toLower
  by_cases h : c.toNat ≥ 65 ∧ c.toNat ≤ 90
  · rw [if_pos h]
    have h2 : (Char.ofNat (c.toNat + 32)).toNat = c.toNat + 32 :=
      char_toNat_ofNat_small _ (by omega)
    rw [if_neg (by omega)]
  · rw [if_neg h, if_neg h]

theorem isWhitespace_toLower (c : Char) :
    c.toLower.isWhitespace = c.isWhitespace := by
  unfold Char.toLower
  by_cases h : c.toNat ≥ 65 ∧ c.toNat ≤ 90
  · rw [if_pos h]
    have h2 : (Char.ofNat (c.toNat + 32)).toNat = c.toNat + 32 :=
      char_toNat_ofNat_small _ (by omega)
    have hna : ¬ (Char.ofNat (c.toNat + 32)).isWhitespace = true := by
      rw [isWhitespace_iff_toNat, h2]; omega
    have hnb : ¬ c.isWhitespace = true := by
      rw [isWhitespace_iff_toNat]; omega
    simp [hna, hnb]
  · rw [if_neg h]

theorem toLowerStr_toLowerStr (s : Str) :
    toLowerStr (toLowerStr s) = toLowerStr s := by
  simp only [toLowerStr, List.map_map]
  apply List.map_congr_left
  intro c _
  exact toLower_toLower c

theorem trimStr_toLowerStr (s : Str) :
    trimStr (toLowerStr s) = toLowerStr (trimStr s) := by
  have hW : (Char.isWhitespace ∘ Char.toLower) = Char.isWhitespace := by
    funext c
    exact isWhitespace_toLower c
  have hrm : ∀ l : Str,
      (l.map Char.toLower).reverse = l.reverse.map Char.toLower := by
    intro l
    simp [List.map_reverse]
  simp only [trimStr, toLowerStr, List.dropWhile_map, hW, hrm]

theorem dropWhile_self (p : Char → Bool) (l : Str) :
    (l.dropWhile p).dropWhile p = l.dropWhile p := by
  induction l with
  | nil => rfl
  | cons a t ih =>
    by_cases h : p a
    · rw [List.dropWhile_cons_of_pos h, ih]
    · rw [List.dropWhile_cons_of_neg h, List.dropWhile_cons_of_neg h]

theorem trimStr_trimStr (s : Str) : trimStr (trimStr s) = trimStr s := by
  set u := s.dropWhile Char.isWhitespace with hu
  have hudrop : u.dropWhile Char.isWhitespace = u := dropWhile_self _ s
  set v := (u.reverse.dropWhile Char.isWhitespace).reverse with hv
  have hsplit : u = v ++ (u.reverse.takeWhile Char.isWhitespace).reverse := by
    have h0 : (u.reverse).reverse =
        ((u.reverse.takeWhile Char.isWhitespace) ++
          (u.reverse.dropWhile Char.isWhitespace)).reverse := by
      rw [List.takeWhile_append_dropWhile]
    rw [List.reverse_reverse, List.reverse_append] at h0
    exact h0
  obtain ⟨w, hw⟩ : ∃ w, u = v ++ w := ⟨_, hsplit⟩
  have hvdrop : v.dropWhile Char.isWhitespace = v := by
    cases hvc : v with
    | nil => rfl
    | cons c v2 =>
      have hcneg : ¬ Char.isWhitespace c = true := by
        intro hc
        have hu2 : u = c :: (v2 ++ w) := by
          rw [hw, hvc, List.cons_append]
        rw [hu2, List.dropWhile_cons_of_pos hc] at hudrop
        have hlen := congrArg List.length hudrop
        have hsub : List.Sublist ((v2 ++ w).dropWhile Char.isWhitespace)
            (v2 ++ w) := List.dropWhile_sublist _
        have hle := hsub.length_le
        simp only [List.length_cons] at hlen
        omega
      rw [List.dropWhile_cons_of_neg hcneg]
  show ((v.dropWhile Char.isWhitespace).reverse.dropWhile
      Char.isWhitespace).reverse = v
  rw [hvdrop]
  rw [show v.reverse = u.reverse.dropWhile Char.isWhitespace from by
    rw [hv, List.reverse_reverse]]
  rw [dropWhile_self, ← hv]

theorem lexLe_refl (a : Str) : lexLe a a = true := by
  induction a with
  | nil => rfl
  | cons x xs ih => simp [lexLe, ih]

theorem lexLe_trans : ∀ a b c : Str, lexLe a b = true → lexLe b c = true →
    lexLe a c = true := by
  intro a
  induction a with
  | nil => intro b c _ _; rfl
  | cons x xs ih =>
    intro b c hab hbc
    cases b with
    | nil => simp [lexLe] at hab
    | cons y ys =>
      cases c with
      | nil => simp [lexLe] at hbc
      | cons z zs =>
        simp only [lexLe] at hab hbc ⊢
        by_cases hxy : x = y
        · subst hxy
          rw [if_pos rfl] at hab
          by_cases hyz : x = z
          · subst hyz
            rw [if_pos rfl] at hbc
            rw [if_pos rfl]
            exact ih ys zs hab hbc
          · rw [if_neg hyz] at hbc
            rw [if_neg hyz]
            exact hbc
        · rw [if_neg hxy] at hab
          have hlt : x < y := by simpa using hab
          by_cases hyz : y = z
          · subst hyz
            rw [if_neg hxy]
            simpa using hlt
          · rw [if_neg hyz] at hbc
            have hlt2 : y < z := by simpa using hbc
            have hxz : x < z := lt_trans hlt hlt2
            rw [if_neg (ne_of_lt hxz)]
            simpa using hxz

theorem lexLe_total : ∀ a b : Str, (lexLe a b || lexLe b a) = true := by
  intro a
  induction a with
  | nil => intro b; simp [lexLe]
  | cons x xs ih =>
    intro b
    cases b with
    | nil => simp [lexLe]
    | cons y ys =>
      simp only [lexLe]
      by_cases hxy : x = y
      · subst hxy
        rw [if_pos rfl, if_pos rfl]
        exact ih ys
      · rw [if_neg hxy, if_neg (Ne.symm hxy)]
        rcases lt_trichotomy x y with h | h | h
        · simp [h]
        · exact absurd h hxy
        · simp [h]

theorem lexLe_antisymm : ∀ a b : Str, lexLe a b = true → lexLe b a = true →
    a = b := by
  intro a
  induction a with
  | nil =>
    intro b _ hba
    cases b with
    | nil => rfl
    | cons y ys => simp [lexLe] at hba
  | cons x xs ih =>
    intro b hab hba
    cases b with
    | nil => simp [lexLe] at hab
    | cons y ys =>
      simp only [lexLe] at hab hba
      by_cases hxy : x = y
      · subst hxy
        rw [if_pos rfl] at hab hba
        rw [ih ys hab hba]
      · rw [if_neg hxy] at hab
        rw [if_neg (Ne.symm hxy)] at hba
        have h1 : x < y := by simpa using hab
        have h2 : y < x := by simpa using hba
        exact absurd h1 (not_lt_of_lt h2)

theorem dedupConsec_subset : ∀ l : List Str, ∀ x ∈ dedupConsec l, x ∈ l := by
  intro l
  induction l using dedupConsec.induct with
  | case1 => intro x hx; simp [dedupConsec] at hx
  | case2 a => intro x hx; simpa [dedupConsec] using hx
  | case3 b rest ih =>
    intro x hx
    rw [dedupConsec, if_pos rfl] at hx
    have := ih x hx
    simp only [List.mem_cons] at this ⊢
    tauto
  | case4 a b rest hne ih =>
    intro x hx
    rw [dedupConsec, if_neg hne] at hx
    simp only [List.mem_cons] at hx ⊢
    rcases hx with h | h
    · exact Or.inl h
    · have := ih x h
      simp only [List.mem_cons] at this
      tauto

theorem dedupConsec_sorted : ∀ l : List Str,
    l.Pairwise (fun a b => lexLe a b = true) →
    (dedupConsec l).Pairwise lexLt := by
  intro l
  induction l using dedupConsec.induct with
  | case1 => intro _; simp [dedupConsec]
  | case2 a => intro _; simp [dedupConsec, List.Pairwise]
  | case3 b rest ih =>
    intro hp
    rw [dedupConsec, if_pos rfl]
    apply ih
    rw [List.pairwise_cons] at hp ⊢
    obtain ⟨h1, h2⟩ := hp
    rw [List.pairwise_cons] at h2
    exact ⟨fun x hx => h1 x (List.mem_cons_of_mem _ hx), h2.2⟩
  | case4 a b rest hne ih =>
    intro hp
    rw [dedupConsec, if_neg hne]
    rw [List.pairwise_cons] at hp
    obtain ⟨h1, h2⟩ := hp
    rw [List.pairwise_cons]
    refine ⟨?_, ih h2⟩
    intro x hx
    have hxmem : x ∈ b :: rest := dedupConsec_subset _ x hx
    refine ⟨h1 x hxmem, ?_⟩
    intro hax
    rcases List.mem_cons.1 hxmem with h | h
    · exact hne (hax.trans h)
    · rw [List.pairwise_cons] at h2
      have hba : lexLe b x = true := h2.1 x h
      have hab : lexLe x b = true := hax ▸ h1 b (List.mem_cons_self b rest)
      exact hne (hax.trans (lexLe_antisymm x b hab hba))

theorem item_sort_le_trans (a b c : VaultItemV1)
    (hab : item_sort_le a b = true) (hbc : item_sort_le b c = true) :
    item_sort_le a c = true := by
  unfold item_sort_le at hab hbc ⊢
  simp only [] at hab hbc ⊢
  by_cases h1 : a.path.getD [] = b.path.getD []
  · rw [if_pos h1] at hab
    by_cases h2 : b.path.getD [] = c.path.getD []
    · rw [if_pos h2] at hbc
      rw [if_pos (h1.trans h2)]
      by_cases h3 : a.name = b.name
      · rw [if_pos h3] at hab
        by_cases h4 : b.name = c.name
        · rw [if_pos h4] at hbc
          rw [if_pos (h3.trans h4)]
          simp only [decide_eq_true_eq] at hab hbc ⊢
          omega
        · rw [if_neg h4] at hbc
          rw [h3, if_neg h4]
          exact hbc
      · rw [if_neg h3] at hab
        by_cases h4 : b.name = c.name
        · rw [← h4, if_neg h3]
          exact hab
        · rw [if_neg h4] at hbc
          by_cases h5 : a.name = c.name
          · exfalso
            rw [h5] at hab
            exact h4 (lexLe_antisymm _ _ hbc hab)
          · rw [if_neg h5]
            exact lexLe_trans _ _ _ hab hbc
    · rw [if_neg h2] at hbc
      rw [h1, if_neg h2]
      exact hbc
  · rw [if_neg h1] at hab
    by_cases h2 : b.path.getD [] = c.path.getD []
    · rw [← h2, if_neg h1]
      exact hab
    · rw [if_neg h2] at hbc
      by_cases h3 : a.path.getD [] = c.path.getD []
      · exfalso
        rw [h3] at hab
        exact h2 (lexLe_antisymm _ _ hbc hab)
      · rw [if_neg h3]
        exact lexLe_trans _ _ _ hab hbc

theorem item_sort_le_total (a b : VaultItemV1) :
    (item_sort_le a b || item_sort_le b a) = true := by
  unfold item_sort_le
  simp only []
  by_cases h1 : a.path.getD [] = b.path.getD []
  · rw [if_pos h1, if_pos h1.symm]
    by_cases h2 : a.name = b.name
    · rw [if_pos h2, if_pos h2.symm]
      simp only [decide_eq_true_eq, Bool.or_eq_true]
      omega
    · rw [if_neg h2, if_neg (Ne.symm h2)]
      exact lexLe_total _ _
  · rw [if_neg h1, if_neg (Ne.symm h1)]
    exact lexLe_total _ _

theorem normalize_tags_normalized (tags : List Str) :
    TagsNormalized (normalize_tags tags) := by
  unfold normalize_tags TagsNormalized
  constructor
  · intro x hx
    have hx1 := dedupConsec_subset _ x hx
    rw [List.mem_mergeSort] at hx1
    rw [List.mem_filterMap] at hx1
    obtain ⟨t, _, ht⟩ := hx1
    simp only [] at ht
    by_cases he : (trimStr t).isEmpty
    · rw [if_pos he] at ht
      exact absurd ht (Option.noConfusion)
    · rw [if_neg he] at ht
      have hx2 : x = toLowerStr (trimStr t) := (Option.some_inj.1 ht).symm
      subst hx2
      refine ⟨?_, toLowerStr_toLowerStr _, ?_⟩
      · rw [trimStr_toLowerStr, trimStr_trimStr]
      · intro hnil
        rw [toLowerStr, List.map_eq_nil_iff] at hnil
        rw [hnil] at he
        exact he rfl
  · exact dedupConsec_sorted _ (List.sorted_mergeSort lexLe_trans lexLe_total _)

theorem normalize_urls_normalized (urls : List Str) :
    UrlsNormalized (normalize_urls urls) := by
  unfold normalize_urls UrlsNormalized
  constructor
  · intro x hx
    have hx1 := dedupConsec_subset _ x hx
    rw [List.mem_mergeSort] at hx1
    rw [List.mem_filterMap] at hx1
    obtain ⟨t, _, ht⟩ := hx1
    simp only [] at ht
    by_cases he : (trimStr t).isEmpty
    · rw [if_pos he] at ht
      exact absurd ht (Option.noConfusion)
    · rw [if_neg he] at ht
      have hx2 : x = trimStr t := (Option.some_inj.1 ht).symm
      subst hx2
      refine ⟨trimStr_trimStr _, ?_⟩
      intro hnil
      rw [hnil] at he
      exact he rfl
  · exact dedupConsec_sorted _ (List.sorted_mergeSort lexLe_trans lexLe_total _)

theorem editFirst_mem (items : List VaultItemV1) (input : EditItemInput)
    (now : Nat) (out : List VaultItemV1)
    (h : editFirst items input now = some out) :
    ∀ x ∈ out, x ∈ items ∨ ∃ i, i ∈ items ∧ x = edit_one i input now := by
  induction items generalizing out with
  | nil =>
    simp only [editFirst] at h
    exact Option.noConfusion h
  | cons i rest ih =>
    simp only [editFirst] at h
    by_cases hid : i.id = input.id
    · rw [if_pos hid] at h
      have hout : edit_one i input now :: rest = out := Option.some_inj.1 h
      intro x hx
      rw [← hout] at hx
      rcases List.mem_cons.1 hx with h1 | h1
      · exact Or.inr ⟨i, List.mem_cons_self i rest, h1⟩
      · exact Or.inl (List.mem_cons_of_mem i h1)
    · rw [if_neg hid] at h
      rw [Option.map_eq_some'] at h
      obtain ⟨out2, hrec, hout⟩ := h
      intro x hx
      rw [← hout] at hx
      rcases List.mem_cons.1 hx with h1 | h1
      · rw [h1]
        exact Or.inl (List.mem_cons_self i rest)
      · rcases ih out2 hrec x h1 with h2 | ⟨j, hj, hx2⟩
        · exact Or.inl (List.mem_cons_of_mem i h2)
        · exact Or.inr ⟨j, List.mem_cons_of_mem i hj, hx2⟩

theorem editFirst_map_id (items : List VaultItemV1) (input : EditItemInput)
    (now : Nat) (out : List VaultItemV1)
    (h : editFirst items input now = some out) :
    out.map (fun it => it.id) = items.map (fun it => it.id) := by
  induction items generalizing out with
  | nil =>
    simp only [editFirst] at h
    exact Option.noConfusion h
  | cons i rest ih =>
    simp only [editFirst] at h
    by_cases hid : i.id = input.id
    · rw [if_pos hid] at h
      have hout : edit_one i input now :: rest = out := Option.some_inj.1 h
      rw [← hout]
      rfl
    · rw [if_neg hid] at h
      rw [Option.map_eq_some'] at h
      obtain ⟨out2, hrec, hout⟩ := h
      rw [← hout]
      simp only [List.map_cons]
      rw [ih out2 hrec]

theorem tags_normalized_nil : TagsNormalized [] :=
  ⟨fun t ht => absurd ht (List.not_mem_nil t), List.Pairwise.nil⟩

theorem urls_normalized_nil : UrlsNormalized [] :=
  ⟨fun u hu => absurd hu (List.not_mem_nil u), List.Pairwise.nil⟩

theorem edit_one_normalized (it : VaultItemV1) (input : EditItemInput)
    (now : Nat) (h : TagsNormalized it.tags ∧ UrlsNormalized it.urls) :
    TagsNormalized (edit_one it input now).tags ∧
      UrlsNormalized (edit_one it input now).urls := by
  constructor
  · show TagsNormalized (if input.clear_tags then [] else
      match input.tags with | some ts => normalize_tags ts | none => it.tags)
    by_cases hc : input.clear_tags
    · rw [if_pos hc]
      exact tags_normalized_nil
    · rw [if_neg hc]
      cases input.tags with
      | some ts => exact normalize_tags_normalized ts
      | none => exact h.1
  · show UrlsNormalized (if input.clear_urls then [] else
      match input.urls with | some us => normalize_urls us | none => it.urls)
    by_cases hc : input.clear_urls
    · rw [if_pos hc]
      exact urls_normalized_nil
    · rw [if_neg hc]
      cases input.urls with
      | some us => exact normalize_urls_normalized us
      | none => exact h.2

theorem pairwise_ne_of_map_eq (l1 l2 : List VaultItemV1)
    (hmap : l1.map (fun it => it.id) = l2.map (fun it => it.id))
    (h : l2.Pairwise (fun a b => a.id ≠ b.id)) :
    l1.Pairwise (fun a b => a.id ≠ b.id) := by
  have h2 : (l2.map (fun it => it.id)).Pairwise Ne := List.pairwise_map.2 h
  rw [← hmap] at h2
  exact List.pairwise_map.1 h2

/-- C7: every payload-level mutation of `vault_add_item_v1`,
`vault_edit_item_v1`, and `vault_remove_item_v1` preserves the model
invariants: normalised tags and urls on every item, items sorted by
`(path or empty, name, id)`, and pairwise-distinct ids (for add, under the
freshness of the sampled `Uuid::new_v4` id). -/
theorem c7_mutations_preserve_invariants
    (payload : VaultPayloadV1) (input : AddItemInput) (einput : EditItemInput)
    (rid now newId : Nat)
    (hinv : PayloadInvariant payload)
    (hfresh : newId ∉ payload.items.map (fun it => it.id)) :
    PayloadInvariant (add_item_payload payload input now newId) ∧
      (∀ p2, edit_item_payload payload einput now = .ok p2 →
        PayloadInvariant p2) ∧
      (∀ p2, remove_item_payload payload rid = .ok p2 →
        PayloadInvariant p2) := by
  obtain ⟨hmem, hsort, hids⟩ := hinv
  refine ⟨?_, ?_, ?_⟩
  · show ItemsInvariant
      ((payload.items ++ [mk_added_item input now newId]).mergeSort item_sort_le)
    refine ⟨?_, List.sorted_mergeSort item_sort_le_trans item_sort_le_total _,
      ?_⟩
    · intro it hit
      rw [List.mem_mergeSort] at hit
      rcases List.mem_append.1 hit with h1 | h1
      · exact hmem it h1
      · have h2 : it = mk_added_item input now newId := by
          simpa using h1
        rw [h2]
        exact ⟨normalize_tags_normalized _, normalize_urls_normalized _⟩
    · have hperm :=
        List.mergeSort_perm (payload.items ++ [mk_added_item input now newId])
          item_sort_le
      refine (List.Perm.pairwise_iff (fun h => Ne.symm h) hperm).2 ?_
      rw [List.pairwise_append]
      refine ⟨hids, by simp, ?_⟩
      intro a ha b hb
      have hb2 : b = mk_added_item input now newId := by simpa using hb
      rw [hb2]
      show a.id ≠ newId
      intro heq
      exact hfresh (heq ▸ List.mem_map_of_mem (fun it => it.id) ha)
  · intro p2 hp2
    unfold edit_item_payload at hp2
    cases heq : editFirst payload.items einput now with
    | none =>
      rw [heq] at hp2
      exact Except.noConfusion hp2
    | some items2 =>
      rw [heq] at hp2
      have hp3 : ({ payload with items := items2.mergeSort item_sort_le } :
          VaultPayloadV1) = p2 := by
        exact Except.ok.inj hp2
      rw [← hp3]
      show ItemsInvariant (items2.mergeSort item_sort_le)
      refine ⟨?_, List.sorted_mergeSort item_sort_le_trans item_sort_le_total _,
        ?_⟩
      · intro it hit
        rw [List.mem_mergeSort] at hit
        rcases editFirst_mem _ _ _ _ heq it hit with h1 | ⟨i, hi, hx⟩
        · exact hmem it h1
        · rw [hx]
          exact edit_one_normalized i einput now (hmem i hi)
      · have hperm := List.mergeSort_perm items2 item_sort_le
        refine (List.Perm.pairwise_iff (fun h => Ne.symm h) hperm).2 ?_
        exact pairwise_ne_of_map_eq items2 payload.items
          (editFirst_map_id _ _ _ _ heq) hids
  · intro p2 hp2
    unfold remove_item_payload at hp2
    simp only [] at hp2
    by_cases hlen : (payload.items.filter (fun i => i.id ≠ rid)).length =
        payload.items.length
    · rw [if_pos hlen] at hp2
      exact Except.noConfusion hp2
    · rw [if_neg hlen] at hp2
      have hp3 : ({ payload with
          items := payload.items.filter (fun i => i.id ≠ rid) } :
          VaultPayloadV1) = p2 := by
        exact Except.ok.inj hp2
      rw [← hp3]
      show ItemsInvariant (payload.items.filter (fun i => i.id ≠ rid))
      have hsub : List.Sublist (payload.items.filter (fun i => i.id ≠ rid))
          payload.items := List.filter_sublist _
      refine ⟨?_, List.Pairwise.sublist hsub hsort,
        List.Pairwise.sublist hsub hids⟩
      intro it hit
      exact hmem it (hsub.mem hit)

/-- Witness for C7 at a concrete one-item payload, an add with
unnormalised tags and a blank url, a retagging edit of item 2, and the
removal of item 2. -/
theorem c7_mutations_preserve_invariants_witness :
    PayloadInvariant c7pay ∧ (99 ∉ c7pay.items.map (fun it => it.id)) ∧
      (PayloadInvariant (add_item_payload c7pay c7add 5 99) ∧
        (∀ p2, edit_item_payload c7pay c7edit 5 = .ok p2 →
          PayloadInvariant p2) ∧
        (∀ p2, remove_item_payload c7pay 2 = .ok p2 →
          PayloadInvariant p2)) :=
  ⟨by decide, by decide,
   c7_mutations_preserve_invariants c7pay c7add c7edit 2 5 99
     (by decide) (by decide)⟩


end Passworder
